import Mathlib

/-!
Verification of the heapprofd in-process client library
(src/profiling/memory/client_ext.cc) and of the offline heap-graph tracker
(src/trace_processor/importers/proto/heap_graph_tracker.cc).

Strings are modelled as `List Char`; machine counters that can overflow are
modelled as `Nat` with an explicit `% 2 ^ 32`.
-/

namespace Perfetto

/-! ### Type-name normalization (heap_graph_tracker.cc, lines 201-248)

`base::StringView` values are modelled as `List Char`; `substr (pos, count)`
becomes `(List.drop pos) ∘ (List.take count)` (both clamp, as the C++ does).
-/

/-- The literal `"java.lang.Class<"` used by `GetStaticClassTypeName`. -/
def javaClassTemplate : List Char := "java.lang.Class<".data

/-- `GetStaticClassTypeName(type)`: if `type` ends in a closing angle and starts
with the `java.lang.Class<` template, return the inner name, i.e.
`type.substr(template.size, type.size - template.size - 1)`. -/
def GetStaticClassTypeName (type : List Char) : Option (List Char) :=
  if type ≠ [] ∧ type.getLast? = some '>' ∧
      type.take javaClassTemplate.length = javaClassTemplate then
    some ((type.drop javaClassTemplate.length).dropLast)
  else
    none

/-- Helper for `NumberOfArrays`: counts trailing `[]` pairs of the *reversed*
string, exactly mirroring the `memcmp(type.end() - 2 * (arrays + 1), "[]", 2)`
loop that inspects successive two-byte suffixes. -/
def arrSuffixCount : List Char → Nat
  | ']' :: '[' :: rest => arrSuffixCount rest + 1
  | _ => 0

/-- `NumberOfArrays(type)`: the number of trailing `[]` pairs. -/
def NumberOfArrays (type : List Char) : Nat :=
  arrSuffixCount type.reverse

/-- The record returned by `GetNormalizedType`. -/
structure NormalizedType where
  name : List Char
  is_static_class : Bool
  number_of_arrays : Nat
  deriving Repr, DecidableEq

/-- `GetNormalizedType(type)`: strip the `java.lang.Class<...>` wrapper (if
present), then strip the trailing `[]` pairs; record which was stripped. -/
def GetNormalizedType (type : List Char) : NormalizedType :=
  match GetStaticClassTypeName type with
  | some inner =>
      ⟨inner.take (inner.length - NumberOfArrays inner * 2), true,
        NumberOfArrays inner⟩
  | none =>
      ⟨type.take (type.length - NumberOfArrays type * 2), false,
        NumberOfArrays type⟩

/-- `NormalizeTypeName(type)`: just the base name of `GetNormalizedType`. -/
def NormalizeTypeName (type : List Char) : List Char :=
  (GetNormalizedType type).name

/-- `k` copies of the two characters `[]`, as appended by the
`for (i < number_of_arrays) result += "[]"` loop of `DenormalizeTypeName`. -/
def arrayPairs : Nat → List Char
  | 0 => []
  | k + 1 => '[' :: ']' :: arrayPairs k

/-- `DenormalizeTypeName(normalized, name)`: re-append the array suffix and
re-apply the `java.lang.Class<...>` wrapper. -/
def DenormalizeTypeName (normalized : NormalizedType)
    (deobfuscated_type_name : List Char) : List Char :=
  let result := deobfuscated_type_name ++ arrayPairs normalized.number_of_arrays
  if normalized.is_static_class then
    javaClassTemplate ++ result ++ ['>']
  else
    result

/-- `k` copies of `][` (the reverse image of the `[]` suffix). -/
def revPairs : Nat → List Char
  | 0 => []
  | k + 1 => ']' :: '[' :: revPairs k

theorem revPairs_reverse (k : Nat) : (revPairs k).reverse = arrayPairs k := by
  induction k with
  | zero => rfl
  | succ k ih =>
    have swap : ∀ m, arrayPairs m ++ ['[', ']'] = '[' :: ']' :: arrayPairs m := by
      intro m
      induction m with
      | zero => rfl
      | succ m ihm => simp [arrayPairs, ihm]
    simp [revPairs, arrayPairs, List.reverse_cons, ih]
    simpa [List.append_assoc] using (swap k)

theorem arrSuffixCount_decompose (r : List Char) :
    revPairs (arrSuffixCount r) ++ r.drop (2 * arrSuffixCount r) = r := by
  induction r using arrSuffixCount.induct with
  | case1 rest ih =>
    simp only [arrSuffixCount]
    have h2 : 2 * (arrSuffixCount rest + 1) = 2 * arrSuffixCount rest + 2 := by
      ring
    simp [revPairs, h2, List.drop_succ_cons, ih]
  | case2 r hr =>
    have h0 : arrSuffixCount r = 0 := by
      unfold arrSuffixCount
      split
      · rename_i x rest
        exact absurd rfl (hr rest)
      · rfl
    simp [h0, revPairs]

theorem arrayPairs_length (k : Nat) : (arrayPairs k).length = k * 2 := by
  induction k with
  | zero => rfl
  | succ k ih =>
    simp [arrayPairs, ih]
    ring

theorem take_append_arrayPairs_aux (u : List Char) (k : Nat) :
    (u ++ arrayPairs k).take ((u ++ arrayPairs k).length - k * 2) ++
      arrayPairs k = u ++ arrayPairs k := by
  have hlen : (u ++ arrayPairs k).length - k * 2 = u.length := by
    simp [List.length_append, arrayPairs_length]
  rw [hlen, List.take_left]

/-- The base name together with the re-appended array suffix reconstructs
the array-stripped input. -/
theorem take_append_arrayPairs (t : List Char) :
    t.take (t.length - NumberOfArrays t * 2) ++ arrayPairs (NumberOfArrays t)
      = t := by
  set k := NumberOfArrays t with hk
  obtain ⟨u, ht⟩ : ∃ u, t = u ++ arrayPairs k := by
    refine ⟨(t.reverse.drop (2 * k)).reverse, ?_⟩
    have hdec := arrSuffixCount_decompose t.reverse
    rw [show arrSuffixCount t.reverse = k from rfl] at hdec
    calc t = t.reverse.reverse := by simp
    _ = (revPairs k ++ t.reverse.drop (2 * k)).reverse := by rw [hdec]
    _ = (t.reverse.drop (2 * k)).reverse ++ (revPairs k).reverse := by
          rw [List.reverse_append]
    _ = (t.reverse.drop (2 * k)).reverse ++ arrayPairs k := by
          rw [revPairs_reverse]
  rw [ht]
  exact take_append_arrayPairs_aux u k

/--
C7: for every type-name string `t`,
`DenormalizeTypeName (GetNormalizedType t) (GetNormalizedType t).name = t`:
the `[]` pairs stripped by normalization and the `java.lang.Class<...>`
wrapper are re-applied so that the round trip yields the input unchanged
(here with the inner name itself substituted back).
-/
theorem DenormalizeTypeName_roundtrip (t : List Char) :
    DenormalizeTypeName (GetNormalizedType t) (GetNormalizedType t).name = t := by
  cases hsc : GetStaticClassTypeName t with
  | none =>
    have hgn : GetNormalizedType t =
        ⟨t.take (t.length - NumberOfArrays t * 2), false, NumberOfArrays t⟩ := by
      unfold GetNormalizedType
      rw [hsc]
    rw [hgn]
    simp only [DenormalizeTypeName, Bool.false_eq_true, if_false]
    exact take_append_arrayPairs t
  | some inner =>
    have hgn : GetNormalizedType t =
        ⟨inner.take (inner.length - NumberOfArrays inner * 2), true,
          NumberOfArrays inner⟩ := by
      unfold GetNormalizedType
      rw [hsc]
    rw [hgn]
    simp only [DenormalizeTypeName, if_true]
    rw [take_append_arrayPairs inner]
    -- now reconstruct t from the static-class detection
    unfold GetStaticClassTypeName at hsc
    split at hsc
    · rename_i hcond
      obtain ⟨hne, hlast, htake⟩ := hcond
      injection hsc with hsc
      subst hsc
      -- t = template ++ drop |template| t, and drop |template| t ends in '>'
      have hsplit : javaClassTemplate ++ t.drop javaClassTemplate.length = t := by
        conv_rhs => rw [← List.take_append_drop javaClassTemplate.length t]
        rw [htake]
      have hdropne : t.drop javaClassTemplate.length ≠ [] := by
        intro hnil
        have htp := hsplit
        rw [hnil, List.append_nil] at htp
        rw [← htp] at hlast
        simp [javaClassTemplate] at hlast
      have hlast2 : (t.drop javaClassTemplate.length).getLast? = some '>' := by
        rw [← List.getLast?_append_of_ne_nil javaClassTemplate hdropne, hsplit]
        exact hlast
      have hrecon : (t.drop javaClassTemplate.length).dropLast ++ ['>'] =
          t.drop javaClassTemplate.length :=
        List.dropLast_append_getLast? '>' hlast2
      calc javaClassTemplate ++ (t.drop javaClassTemplate.length).dropLast ++ ['>']
          = javaClassTemplate ++
            ((t.drop javaClassTemplate.length).dropLast ++ ['>']) := by
            rw [List.append_assoc]
        _ = javaClassTemplate ++ t.drop javaClassTemplate.length := by rw [hrecon]
        _ = t := hsplit
    · exact Option.noConfusion hsc

/-! ### Package attribution (heap_graph_tracker.cc, lines 28-45 and 253-339)

`StringView::find(c)` is modelled by `List.findIdx?`; `find(c, start)` by
searching the dropped suffix and re-adding `start`.
-/

/-- `location.find(c)`. -/
def strFind (c : Char) (s : List Char) : Option Nat :=
  s.findIdx? (fun x => x == c)

/-- `location.find(c, start)`: the returned index is absolute. -/
def strFindFrom (c : Char) (s : List Char) (start : Nat) : Option Nat :=
  ((s.drop start).findIdx? (fun x => x == c)).map (fun i => i + start)

/-- The `"/data/app/"` prefix. -/
def dataAppPrefix : List Char := "/data/app/".data

/-- `PackageFromApp(location)` (heap_graph_tracker.cc lines 28-45): strip the
`/data/app/` prefix; locate the first and second slashes; keep the part before
the first slash when there is no second slash, otherwise
`substr(slash + 1, second_slash - slash)`; truncate at the first minus. -/
def PackageFromApp (location : List Char) : Option (List Char) :=
  let loc := location.drop dataAppPrefix.length
  match strFind '/' loc with
  | none => none
  | some slash =>
    let loc2 :=
      match strFindFrom '/' loc (slash + 1) with
      | none => loc.take slash
      | some second_slash => (loc.drop (slash + 1)).take (second_slash - slash)
    match strFind '-' loc2 with
    | none => none
    | some minus => some (loc2.take minus)

/-- `location.size() >= p.size() && location.substr(0, p.size()) == p`. -/
def viewStartsWith (p s : List Char) : Bool :=
  decide (s.take p.length = p)

/-- `location.find(pattern) != npos` (used for the `MatchMaker` check). -/
def containsSub (pat : List Char) : List Char → Bool
  | [] => pat.isEmpty
  | c :: rest => pat.isPrefixOf (c :: rest) || containsSub pat rest

/-- `HeapGraphTracker::PackageFromLocation` (lines 253-339): the hardcoded
system-app prefixes, the `MatchMaker` substring special case, and finally the
`/data/app/` parsing path.  (The `IncrementStats` on parse failure only touches
a counter and is omitted; the function result is unaffected.) -/
def PackageFromLocation (location : List Char) : Option (List Char) :=
  if viewStartsWith "/system_ext/priv-app/SystemUIGoogle/SystemUIGoogle.apk".data
      location then
    some "com.android.systemui".data
  else if viewStartsWith "/product/priv-app/Phonesky/Phonesky.apk".data
      location then
    some "com.android.vending".data
  else if viewStartsWith "/product/app/Maps/Maps.apk".data location then
    some "com.google.android.apps.maps".data
  else if viewStartsWith
      "/system_ext/priv-app/NexusLauncherRelease/NexusLauncherRelease.apk".data
      location then
    some "com.google.android.apps.nexuslauncher".data
  else if viewStartsWith "/product/app/Photos/Photos.apk".data location then
    some "com.google.android.apps.photos".data
  else if viewStartsWith
      "/product/priv-app/WellbeingPrebuilt/WellbeingPrebuilt.apk".data
      location then
    some "com.google.android.apps.wellbeing".data
  else if containsSub "MatchMaker".data location then
    some "com.google.android.as".data
  else if viewStartsWith "/product/app/PrebuiltGmail/PrebuiltGmail.apk".data
      location then
    some "com.google.android.gm".data
  else if viewStartsWith "/product/priv-app/PrebuiltGmsCore/PrebuiltGmsCore".data
      location then
    some "com.google.android.gms".data
  else if viewStartsWith "/product/priv-app/Velvet/Velvet.apk".data location then
    some "com.google.android.googlequicksearchbox".data
  else if viewStartsWith
      "/product/app/LatinIMEGooglePrebuilt/LatinIMEGooglePrebuilt.apk".data
      location then
    some "com.google.android.inputmethod.latin".data
  else if viewStartsWith dataAppPrefix location then
    PackageFromApp location
  else
    none

/-- The computation claim C9 ascribes to the code: strip the prefix, take the
FIRST path segment, truncate at the first minus, no package when the segment
has no minus. -/
def claimedPackageFromApp (location : List Char) : Option (List Char) :=
  let rest := location.drop dataAppPrefix.length
  let seg := rest.takeWhile (fun x => x != '/')
  match strFind '-' seg with
  | none => none
  | some minus => some (seg.take minus)

/-- Truncation at the first minus sign, shared tail of both descriptions. -/
def truncAtMinus (seg : List Char) : Option (List Char) :=
  match strFind '-' seg with
  | none => none
  | some minus => some (seg.take minus)

/-- Modelled from the amended claim: after stripping the `/data/app/` prefix,
the candidate segment is the part before the first slash when there is exactly
one slash, the segment between the first and second slashes when there are at
least two, and there is no package at all when there is no slash; the candidate
is then truncated at its first minus (no package when it has no minus). -/
def amendedPackageFromApp (location : List Char) : Option (List Char) :=
  let rest := location.drop dataAppPrefix.length
  let seg1 := rest.takeWhile (fun x => x != '/')
  if seg1.length = rest.length then
    none
  else
    let tail := rest.drop (seg1.length + 1)
    let seg2 := tail.takeWhile (fun x => x != '/')
    truncAtMinus (if seg2.length = tail.length then seg1 else seg2)

theorem findChar_none (c : Char) (l : List Char)
    (h : l.findIdx? (fun x => x == c) = none) :
    l.takeWhile (fun x => x != c) = l := by
  induction l with
  | nil => rfl
  | cons a l ih =>
    rw [List.findIdx?_cons] at h
    by_cases hac : (a == c) = true
    · simp [hac] at h
    · simp only [hac, if_false, List.findIdx?_succ] at h
      have h0 : l.findIdx? (fun x => x == c) = none := by
        cases hfi : l.findIdx? (fun x => x == c) with
        | none => rfl
        | some j => rw [hfi] at h; simp at h
      rw [Bool.not_eq_true] at hac
      have hb : (a != c) = true := by
        simp [bne, hac]
      rw [List.takeWhile_cons]
      simp only [hb, if_true]
      rw [ih h0]

theorem findChar_some (c : Char) (l : List Char) :
    ∀ i, l.findIdx? (fun x => x == c) = some i →
      l.takeWhile (fun x => x != c) = l.take i ∧ i < l.length ∧
        l.take (i + 1) = l.take i ++ [c] := by
  induction l with
  | nil => intro i h; simp [List.findIdx?_nil] at h
  | cons a l ih =>
    intro i h
    rw [List.findIdx?_cons] at h
    by_cases hac : (a == c) = true
    · simp only [hac, if_true] at h
      injection h with h
      subst h
      have hval : a = c := by
        simpa using hac
      subst hval
      refine ⟨?_, by simp, by simp⟩
      rw [List.takeWhile_cons]
      simp [bne]
    · simp only [hac, if_false, List.findIdx?_succ] at h
      cases hfi : l.findIdx? (fun x => x == c) with
      | none => rw [hfi] at h; simp at h
      | some j =>
        rw [hfi] at h
        simp only [Option.map_some'] at h
        injection h with h
        subst h
        obtain ⟨h1, h2, h3⟩ := ih j hfi
        rw [Bool.not_eq_true] at hac
        have hb : (a != c) = true := by
          simp [bne, hac]
        refine ⟨?_, by simpa using h2, ?_⟩
        · rw [List.takeWhile_cons]
          simp only [hb, if_true]
          rw [h1, List.take_succ_cons]
        · rw [List.take_succ_cons, List.take_succ_cons, h3, List.cons_append]

theorem findIdx?_append_single (c x : Char) (l : List Char)
    (hne : (x == c) = false) :
    (l ++ [x]).findIdx? (fun ch => ch == c) = l.findIdx? (fun ch => ch == c) := by
  induction l with
  | nil => simp [List.findIdx?_cons, hne, List.findIdx?_nil]
  | cons a l ih =>
    rw [List.cons_append, List.findIdx?_cons, List.findIdx?_cons]
    by_cases hac : (a == c) = true
    · simp [hac]
    · simp only [hac, if_false, List.findIdx?_succ, ih]

theorem truncAtMinus_append_slash (l : List Char) :
    truncAtMinus (l ++ ['/']) = truncAtMinus l := by
  unfold truncAtMinus strFind
  rw [findIdx?_append_single '-' '/' l (by decide)]
  cases hm : l.findIdx? (fun ch => ch == '-') with
  | none => rfl
  | some m =>
    obtain ⟨_, hmlt, _⟩ := findChar_some '-' l m hm
    simp only []
    rw [List.take_append_eq_append_take,
      Nat.sub_eq_zero_of_le (Nat.le_of_lt hmlt), List.take_zero,
      List.append_nil]

/-- The `/data/app/` parser agrees with the amended description on every
location string. -/
theorem PackageFromApp_eq_amended (location : List Char) :
    PackageFromApp location = amendedPackageFromApp location := by
  unfold PackageFromApp amendedPackageFromApp
  simp only []
  generalize location.drop dataAppPrefix.length = rest
  cases hf : strFind '/' rest with
  | none =>
    simp [findChar_none _ _ hf]
  | some slash =>
    simp only []
    obtain ⟨hseg, hlt, htk⟩ := findChar_some '/' rest slash hf
    have hseglen : (rest.takeWhile (fun x => x != '/')).length = slash := by
      rw [hseg, List.length_take]
      exact Nat.min_eq_left (Nat.le_of_lt hlt)
    rw [hseglen, if_neg (Nat.ne_of_lt hlt)]
    unfold strFindFrom
    cases hf2 : (rest.drop (slash + 1)).findIdx? (fun x => x == '/') with
    | none =>
      have hseg2 := findChar_none '/' _ hf2
      rw [hseg2, if_pos rfl]
      simp only [Option.map_none']
      rw [hseg]
      rfl
    | some j =>
      obtain ⟨hseg2, hlt2, htk2⟩ := findChar_some '/' _ j hf2
      have hlen2 : ((rest.drop (slash + 1)).takeWhile
          (fun x => x != '/')).length = j := by
        rw [hseg2, List.length_take]
        exact Nat.min_eq_left (Nat.le_of_lt hlt2)
      rw [hlen2, if_neg (Nat.ne_of_lt hlt2)]
      simp only [Option.map_some']
      have harith : j + (slash + 1) - slash = j + 1 := by omega
      rw [harith, htk2, hseg2]
      exact truncAtMinus_append_slash _

theorem viewStartsWith_take (p s : List Char) (m : Nat)
    (h : viewStartsWith p s = true) (hm : m ≤ p.length) :
    s.take m = p.take m := by
  unfold viewStartsWith at h
  have hp : s.take p.length = p := of_decide_eq_true h
  calc s.take m = (s.take p.length).take m := by
        rw [List.take_take, Nat.min_eq_left hm]
    _ = p.take m := by rw [hp]

theorem notStartsWith_of_data_app (p s : List Char)
    (hpre : s.take dataAppPrefix.length = dataAppPrefix)
    (hlen : dataAppPrefix.length ≤ p.length)
    (hne : p.take dataAppPrefix.length ≠ dataAppPrefix) :
    viewStartsWith p s = false := by
  by_cases h : viewStartsWith p s = true
  · exact absurd (by rw [← viewStartsWith_take p s dataAppPrefix.length h hlen,
      hpre]) (Ne.symm hne)
  · simpa using h

/--
C9 counterexample: for the location `/data/app/com.x-1/y/z` (which begins with
`/data/app/`), the code computes no package at all, whereas the claim's recipe
(first path segment `com.x-1`, truncated at the first minus) yields `com.x`.
The code in fact takes the *second* path segment when there are two or more
slashes after the prefix.
-/
theorem PackageFromApp_first_segment_counterexample :
    PackageFromLocation "/data/app/com.x-1/y/z".data = none ∧
    claimedPackageFromApp "/data/app/com.x-1/y/z".data = some "com.x".data := by
  constructor
  · decide
  · decide

/--
C9 (amended): for every location string beginning with `/data/app/` and not
containing the substring `MatchMaker`, the package computed by
`PackageFromLocation` is obtained by stripping the prefix and then taking the
part before the first slash when there is exactly one slash, the segment
between the first and second slashes when there are at least two (no package
when there is no slash at all), truncated at its first `-` (no package when
that segment contains no `-`).
-/
theorem PackageFromLocation_data_app_spec (location : List Char)
    (hpre : location.take dataAppPrefix.length = dataAppPrefix)
    (hmm2 : containsSub "MatchMaker".data location = false) :
    PackageFromLocation location = amendedPackageFromApp location := by
  unfold PackageFromLocation
  rw [notStartsWith_of_data_app _ _ hpre (by decide) (by decide),
    notStartsWith_of_data_app _ _ hpre (by decide) (by decide),
    notStartsWith_of_data_app _ _ hpre (by decide) (by decide),
    notStartsWith_of_data_app _ _ hpre (by decide) (by decide),
    notStartsWith_of_data_app _ _ hpre (by decide) (by decide),
    notStartsWith_of_data_app _ _ hpre (by decide) (by decide), hmm2,
    notStartsWith_of_data_app _ _ hpre (by decide) (by decide),
    notStartsWith_of_data_app _ _ hpre (by decide) (by decide),
    notStartsWith_of_data_app _ _ hpre (by decide) (by decide),
    notStartsWith_of_data_app _ _ hpre (by decide) (by decide)]
  have hdata : viewStartsWith dataAppPrefix location = true := by
    unfold viewStartsWith
    exact decide_eq_true hpre
  rw [hdata]
  simp only [Bool.false_eq_true, if_false, if_true]
  exact PackageFromApp_eq_amended location

/-- Witness for the amended C9 theorem at a concrete location. -/
theorem PackageFromLocation_data_app_spec_witness :
    PackageFromLocation "/data/app/~~h/com.foo-xyz/base.apk".data =
        some "com.foo".data ∧
      amendedPackageFromApp "/data/app/~~h/com.foo-xyz/base.apk".data =
        some "com.foo".data := by
  have h := PackageFromLocation_data_app_spec
    "/data/app/~~h/com.foo-xyz/base.apk".data (by decide) (by decide)
  refine ⟨?_, by decide⟩
  rw [h]
  decide

/-! ### Flamegraph cumulative folding (heap_graph_tracker.cc, lines 742-811)

`BuildFlamegraph` folds cumulative sizes and counts bottom-up over the result
tree produced by `FindPathFromRoot`:

    for (size_t i = nodes.size() - 1; i > 0; --i) {
      cum[i] += node.size;
      cum[node.parent_id] += cum[i];     (and the same for count)
    }

The result tree is modelled by its `parent` map and its per-node self values;
the artificial root is index `0`, and `FindPathFromRoot` only ever appends a
node after its parent (`PERFETTO_CHECK(node.parent_id < i)`), which is the
`parent j < j` hypothesis below.  The cumulative vector is a function
`Nat → Int` (the node payload lives in the header, which is not part of the
sources; its integer widths are idealized to `Int`). -/

/-- One iteration of the bottom-up folding loop at index `i`:
`cum[i] += self[i]; cum[parent i] += cum[i]`. -/
def cumStep (parent : Nat → Nat) (selfv : Nat → Int) (i : Nat)
    (cum : Nat → Int) : Nat → Int :=
  let cum1 := Function.update cum i (cum i + selfv i)
  Function.update cum1 (parent i) (cum1 (parent i) + cum1 i)

/-- The folding loop, processing indices `k, k - 1, ..., 1`; index `0`, the
artificial root, is skipped, matching the loop condition `i > 0`. -/
def cumFold (parent : Nat → Nat) (selfv : Nat → Int) :
    Nat → (Nat → Int) → Nat → Int
  | 0, cum => cum
  | k + 1, cum => cumFold parent selfv k (cumStep parent selfv (k + 1) cum)

/-- The cumulative vector computed by `BuildFlamegraph` for a result tree with
`n` nodes: the all-zero vector folded from `n - 1` down to `1`. -/
def buildFlamegraphCumulative (parent : Nat → Nat) (selfv : Nat → Int)
    (n : Nat) : Nat → Int :=
  cumFold parent selfv (n - 1) (fun _ => 0)

theorem cumStep_at_other (parent : Nat → Nat) (selfv : Nat → Int) (i : Nat)
    (cum : Nat → Int) (m : Nat) (h1 : m ≠ i) (h2 : m ≠ parent i) :
    cumStep parent selfv i cum m = cum m := by
  simp only [cumStep]
  rw [Function.update_noteq h2, Function.update_noteq h1]

theorem cumStep_at_self (parent : Nat → Nat) (selfv : Nat → Int) (i : Nat)
    (cum : Nat → Int) (h : parent i ≠ i) :
    cumStep parent selfv i cum i = cum i + selfv i := by
  simp only [cumStep]
  rw [Function.update_noteq (Ne.symm h), Function.update_same]

theorem cumStep_at_parent (parent : Nat → Nat) (selfv : Nat → Int) (i : Nat)
    (cum : Nat → Int) (h : parent i ≠ i) :
    cumStep parent selfv i cum (parent i) =
      cum (parent i) + (cum i + selfv i) := by
  simp only [cumStep]
  rw [Function.update_same, Function.update_noteq h, Function.update_same]

theorem cumFold_untouched (parent : Nat → Nat) (selfv : Nat → Int) :
    ∀ (k : Nat) (cum : Nat → Int) (m : Nat),
      (∀ j, 1 ≤ j → j ≤ k → parent j < j) → k < m →
      cumFold parent selfv k cum m = cum m := by
  intro k
  induction k with
  | zero =>
    intro cum m _ _
    rfl
  | succ k ih =>
    intro cum m hp hm
    show cumFold parent selfv k (cumStep parent selfv (k + 1) cum) m = cum m
    rw [ih _ m (fun j a b => hp j a (Nat.le_succ_of_le b))
      (Nat.lt_of_succ_lt hm)]
    have hpk : parent (k + 1) < k + 1 := hp (k + 1) (by omega) (le_refl _)
    exact cumStep_at_other parent selfv (k + 1) cum m (by omega) (by omega)

theorem cumFold_spec (parent : Nat → Nat) (selfv : Nat → Int) :
    ∀ (k : Nat) (cum : Nat → Int),
      (∀ j, 1 ≤ j → j ≤ k → parent j < j) →
      ∀ i, 1 ≤ i → i ≤ k →
      cumFold parent selfv k cum i =
        cum i + selfv i +
          ∑ j ∈ (Finset.Icc (i + 1) k).filter (fun j => parent j = i),
            cumFold parent selfv k cum j := by
  intro k
  induction k with
  | zero =>
    intro cum _ i h1 h2
    omega
  | succ k ih =>
    intro cum hp i h1 h2
    have hp' : ∀ j, 1 ≤ j → j ≤ k → parent j < j :=
      fun j a b => hp j a (Nat.le_succ_of_le b)
    have hpk : parent (k + 1) < k + 1 := hp (k + 1) (by omega) (le_refl _)
    have hfold : cumFold parent selfv (k + 1) cum =
        cumFold parent selfv k (cumStep parent selfv (k + 1) cum) := rfl
    rw [hfold]
    have htop : cumFold parent selfv k (cumStep parent selfv (k + 1) cum)
        (k + 1) = cum (k + 1) + selfv (k + 1) := by
      rw [cumFold_untouched parent selfv k _ (k + 1) hp' (by omega)]
      exact cumStep_at_self parent selfv (k + 1) cum (Nat.ne_of_lt hpk)
    by_cases hik : i = k + 1
    · subst hik
      rw [htop]
      have hempty : Finset.Icc (k + 1 + 1) (k + 1) = (∅ : Finset Nat) :=
        Finset.Icc_eq_empty (by omega)
      rw [hempty]
      simp
    · have hik2 : i ≤ k := by omega
      rw [ih _ hp' i h1 hik2]
      -- split the sum over `Icc (i+1) (k+1)` into the `k+1` term and the rest
      have hicc : Finset.Icc (i + 1) (k + 1) =
          insert (k + 1) (Finset.Icc (i + 1) k) :=
        (Nat.Icc_insert_succ_right (by omega)).symm
      rw [hicc, Finset.filter_insert]
      by_cases hpar : parent (k + 1) = i
      · rw [if_pos hpar, Finset.sum_insert (by
          simp only [Finset.mem_filter, Finset.mem_Icc]
          rintro ⟨⟨_, hle⟩, _⟩
          omega)]
        rw [htop]
        have hci : cumStep parent selfv (k + 1) cum i =
            cum i + (cum (k + 1) + selfv (k + 1)) := by
          rw [← hpar]
          exact cumStep_at_parent parent selfv (k + 1) cum (Nat.ne_of_lt hpk)
        rw [hci]
        ring
      · rw [if_neg hpar]
        have hci : cumStep parent selfv (k + 1) cum i = cum i :=
          cumStep_at_other parent selfv (k + 1) cum i (by omega)
            (fun h => hpar h.symm)
        rw [hci]

theorem buildFlamegraphCumulative_eq (parent : Nat → Nat) (selfv : Nat → Int)
    (n : Nat) (hwf : ∀ j, 1 ≤ j → j ≤ n - 1 → parent j < j)
    (i : Nat) (h1 : 1 ≤ i) (h2 : i ≤ n - 1) :
    buildFlamegraphCumulative parent selfv n i =
      selfv i +
        ∑ j ∈ (Finset.Icc 1 (n - 1)).filter (fun j => parent j = i),
          buildFlamegraphCumulative parent selfv n j := by
  unfold buildFlamegraphCumulative
  rw [cumFold_spec parent selfv (n - 1) (fun _ => 0) hwf i h1 h2]
  have hfe : (Finset.Icc 1 (n - 1)).filter (fun j => parent j = i) =
      (Finset.Icc (i + 1) (n - 1)).filter (fun j => parent j = i) := by
    apply Finset.ext
    intro j
    simp only [Finset.mem_filter, Finset.mem_Icc]
    constructor
    · rintro ⟨⟨hj1, hj2⟩, hpj⟩
      have := hwf j hj1 hj2
      exact ⟨⟨by omega, hj2⟩, hpj⟩
    · rintro ⟨⟨hj1, hj2⟩, hpj⟩
      exact ⟨⟨by omega, hj2⟩, hpj⟩
  rw [hfe]
  rw [zero_add]

/--
C6: in the tree built by `BuildFlamegraph`, the cumulative size recorded at
each node (index `i`, skipping the artificial root `0`) equals the node's own
self size plus the sum of the cumulative sizes of its children in the result
tree, and likewise for the cumulative count.  The hypothesis `parent j < j` is
the `PERFETTO_CHECK(node.parent_id < i)` invariant of the result tree.
-/
theorem BuildFlamegraph_cumulative_spec (parent : Nat → Nat)
    (size count : Nat → Int) (n : Nat)
    (hwf : ∀ j, 1 ≤ j → j ≤ n - 1 → parent j < j)
    (i : Nat) (h1 : 1 ≤ i) (h2 : i ≤ n - 1) :
    (buildFlamegraphCumulative parent size n i =
      size i +
        ∑ j ∈ (Finset.Icc 1 (n - 1)).filter (fun j => parent j = i),
          buildFlamegraphCumulative parent size n j) ∧
    (buildFlamegraphCumulative parent count n i =
      count i +
        ∑ j ∈ (Finset.Icc 1 (n - 1)).filter (fun j => parent j = i),
          buildFlamegraphCumulative parent count n j) :=
  ⟨buildFlamegraphCumulative_eq parent size n hwf i h1 h2,
    buildFlamegraphCumulative_eq parent count n hwf i h1 h2⟩

/-- Example tree for the C6 witness: the spec's end-to-end scenario 5 — node 1
(type `A`, self 8) parents node 2 (type `B`, self 16). -/
def flameParentEx (j : Nat) : Nat := j - 1

/-- Self sizes of the example tree (index 0 is the artificial root). -/
def flameSizeEx (j : Nat) : Int := if j = 1 then 8 else if j = 2 then 16 else 0

/-- Self counts of the example tree. -/
def flameCountEx (j : Nat) : Int := if j = 0 then 0 else 1

/-- Witness for C6 at the concrete two-node tree: the hypotheses hold and the
theorem applies; moreover the computed cumulative size of node 1 is
`8 + 16 = 24`. -/
theorem BuildFlamegraph_cumulative_spec_witness :
    (buildFlamegraphCumulative flameParentEx flameSizeEx 3 1 = 24 ∧
      buildFlamegraphCumulative flameParentEx flameCountEx 3 1 = 2) ∧
    ((buildFlamegraphCumulative flameParentEx flameSizeEx 3 1 =
      flameSizeEx 1 +
        ∑ j ∈ (Finset.Icc 1 (3 - 1)).filter (fun j => flameParentEx j = 1),
          buildFlamegraphCumulative flameParentEx flameSizeEx 3 j) ∧
    (buildFlamegraphCumulative flameParentEx flameCountEx 3 1 =
      flameCountEx 1 +
        ∑ j ∈ (Finset.Icc 1 (3 - 1)).filter (fun j => flameParentEx j = 1),
          buildFlamegraphCumulative flameParentEx flameCountEx 3 j)) :=
  ⟨⟨by decide, by decide⟩,
    BuildFlamegraph_cumulative_spec flameParentEx flameSizeEx flameCountEx 3
      (by
        intro j hj1 hj2
        simp only [flameParentEx]
        omega)
      1 (by decide) (by decide)⟩

/-! ### heapprofd client (client_ext.cc)

Sequential model of the process-wide state.  `g_heaps` is the fixed 256-entry
array, `g_next_heap_id` the 32-bit atomic counter (overflow modelled with an
explicit `% 2 ^ 32`), and `g_client` the primary shared pointer.  The 64-byte
NUL-padded `heap_name` buffers compared with
`strncmp(_, _, HEAPPROFD_HEAP_NAME_SZ)` are modelled as `String`s compared for
equality.  Callback invocations are returned as explicit event lists.
-/

/-- One slot of `g_heaps` (`HeapprofdHeapInfoInternal`): the copied
`HeapprofdHeapInfo` (name, optional callback) plus `ready`, `enabled` and the
negotiated service-side heap index. -/
structure HeapEntry where
  heap_name : String
  has_callback : Bool
  ready : Bool
  enabled : Bool
  service_heap_id : Nat
  deriving Repr, DecidableEq

/-- A zero-initialized slot. -/
def defaultHeapEntry : HeapEntry :=
  { heap_name := "", has_callback := false, ready := false, enabled := false,
    service_heap_id := 0 }

/-- The profiling `Client`: connection state, the handshake's
`ClientConfiguration` heap-name list, and the sampler decision for the next
allocation (`GetSampleSizeLocked`), as an oracle from requested size to
sampled size (`0` = not sampled). -/
structure ClientState where
  connected : Bool
  heapNames : List String
  sample : Nat → Nat

/-- Process-wide globals: `g_heaps`, `g_next_heap_id`, `g_client`. -/
structure HState where
  heaps : List HeapEntry
  nextHeapId : Nat
  client : Option ClientState

/-- `kMinHeapId`. -/
def kMinHeapId : Nat := 1

/-- `perfetto::base::ArraySize(g_heaps)`. -/
def gHeapsSize : Nat := 256

/-- Modelled from the spec: `sizeof(HeapprofdHeapInfo)`.  The header defining
the ABI struct (a `HEAPPROFD_HEAP_NAME_SZ`-byte NUL-padded name plus a
callback pointer) is not among the sources; only the comparison
`n > sizeof(HeapprofdHeapInfo)` matters below, so the size is fixed at
`64 + 8 = 72` bytes. -/
def sizeofHeapprofdHeapInfo : Nat := 72

/-- The zero-initialized process state: 256 empty slots, counter at
`kMinHeapId`, empty client pointer. -/
def initialHState : HState :=
  { heaps := List.replicate gHeapsSize defaultHeapEntry,
    nextHeapId := kMinHeapId, client := none }

/-- A recorded `heap.info.callback(flag)` invocation: heap index and flag. -/
abbrev CbEvent := Nat × Bool

/-- `heapprofd_register_heap(info, n)` (lines 373-391): reject a
newer-than-known info struct; `fetch_add` the 32-bit id counter; reject ids
beyond the array size; otherwise copy the caller's info into the slot and
publish it with `ready = true`.  Returns the id (`0` on rejection) and the new
state. -/
def heapprofd_register_heap (s : HState) (name : String) (hasCb : Bool)
    (n : Nat) : Nat × HState :=
  if n > sizeofHeapprofdHeapInfo then
    (0, s)
  else
    let next_id := s.nextHeapId
    let s1 := { s with nextHeapId := (s.nextHeapId + 1) % 2 ^ 32 }
    if next_id ≥ gHeapsSize then
      (0, s1)
    else
      let heap := s1.heaps.getD next_id defaultHeapEntry
      let heap2 :=
        { heap with heap_name := name, has_callback := hasCb, ready := true }
      (next_id, { s1 with heaps := s1.heaps.set next_id heap2 })

/-- The body of the `DisableAllHeaps` loop at index `i`: skip non-ready slots;
disable an enabled slot and fire its callback with `false` when present. -/
def disableHeapAt (hs : List HeapEntry) (i : Nat) :
    List HeapEntry × List CbEvent :=
  let heap := hs.getD i defaultHeapEntry
  if !heap.ready then
    (hs, [])
  else if heap.enabled then
    (hs.set i { heap with enabled := false },
      if heap.has_callback then [(i, false)] else [])
  else
    (hs, [])

/-- Fold step of the `DisableAllHeaps` loop: thread the heap array and
accumulate the callback events. -/
def disableFoldStep (acc : List HeapEntry × List CbEvent) (i : Nat) :
    List HeapEntry × List CbEvent :=
  ((disableHeapAt acc.1 i).1, acc.2 ++ (disableHeapAt acc.1 i).2)

/-- `DisableAllHeaps()` (lines 294-305): walk ids `kMinHeapId ≤ i <
g_next_heap_id`. -/
def DisableAllHeaps (s : HState) : HState × List CbEvent :=
  let r := (List.range' kMinHeapId (s.nextHeapId - kMinHeapId)).foldl
    disableFoldStep (s.heaps, [])
  ({ s with heaps := r.1 }, r.2)

/-- `ShutdownLazy()` (lines 307-321): under the spinlock, return at once when
`g_client` is already empty (another invocation initiated shutdown);
otherwise disable all heaps and clear the primary pointer.
(`android_mallopt(M_RESET_HOOKS)` affects only the host allocator's dispatch
table, outside this state.) -/
def ShutdownLazy (s : HState) : HState × List CbEvent :=
  match s.client with
  | none => (s, [])
  | some _ =>
    let r := DisableAllHeaps s
    ({ r.1 with client := none }, r.2)

/-- Outcome of one hook invocation: the value returned to the caller, whether
a record was handed to the socket (`RecordMalloc` / `RecordFree` invoked),
the callback invocations fired, and the final state. -/
structure ReportResult where
  ret : Bool
  emitted : Bool
  events : List CbEvent
  state : HState

/-- `heapprofd_report_allocation(heap_id, id, size)` (lines 393-421).
`GetHeap(heap_id)` indexes `g_heaps` without a bounds check: an out-of-bounds
read is undefined behaviour, modelled as `none`.  `emitOk` is the outcome of
`client->RecordMalloc` on the socket. -/
def heapprofd_report_allocation (s : HState) (heap_id : Nat) (size : Nat)
    (emitOk : Bool) : Option ReportResult :=
  match s.heaps.get? heap_id with
  | none => none
  | some heap =>
    if !heap.enabled then
      some { ret := false, emitted := false, events := [], state := s }
    else
      match s.client with
      | none => some { ret := false, emitted := false, events := [], state := s }
      | some cl =>
        if cl.sample size = 0 then
          some { ret := false, emitted := false, events := [], state := s }
        else if emitOk then
          some { ret := true, emitted := true, events := [], state := s }
        else
          let r := ShutdownLazy s
          some { ret := true, emitted := true, events := r.2, state := r.1 }

/-- `heapprofd_report_free(heap_id, id)` (lines 423-443): void return (the
`ret` field is unused and fixed to `false`); emits a `Free` record when a
client is installed, lazy-shutting-down on emission failure. -/
def heapprofd_report_free (s : HState) (heap_id : Nat) (emitOk : Bool) :
    Option ReportResult :=
  match s.heaps.get? heap_id with
  | none => none
  | some heap =>
    if !heap.enabled then
      some { ret := false, emitted := false, events := [], state := s }
    else
      match s.client with
      | none => some { ret := false, emitted := false, events := [], state := s }
      | some _ =>
        if emitOk then
          some { ret := false, emitted := true, events := [], state := s }
        else
          let r := ShutdownLazy s
          some { ret := false, emitted := true, events := r.2, state := r.1 }

/-- The body of the `heapprofd_init_session` matching loop at heap index `j`
(lines 500-526): find the first handshake heap name equal to the slot's name;
on a match store its index in `service_heap_id`, fire the callback with `true`
on a false→true flip, and set `enabled`; a previously enabled slot with no
match is disabled and its callback fired with `false`. -/
def initMatchHeapAt (cfg : List String) (hs : List HeapEntry) (j : Nat) :
    List HeapEntry × List CbEvent :=
  let heap := hs.getD j defaultHeapEntry
  if !heap.ready then
    (hs, [])
  else
    match cfg.findIdx? (fun nm => nm == heap.heap_name) with
    | some i =>
      (hs.set j { heap with service_heap_id := i, enabled := true },
        if !heap.enabled && heap.has_callback then [(j, true)] else [])
    | none =>
      if heap.enabled then
        (hs.set j { heap with enabled := false },
          if heap.has_callback then [(j, false)] else [])
      else
        (hs, [])

/-- Fold step of the `heapprofd_init_session` matching loop. -/
def initMatchFoldStep (cfg : List String)
    (acc : List HeapEntry × List CbEvent) (j : Nat) :
    List HeapEntry × List CbEvent :=
  ((initMatchHeapAt cfg acc.1 j).1, acc.2 ++ (initMatchHeapAt cfg acc.1 j).2)

/-- The full matching loop of `heapprofd_init_session` over ids
`[kMinHeapId, g_next_heap_id)`. -/
def initMatchAllHeaps (cfg : List String) (s : HState) :
    HState × List CbEvent :=
  let r := (List.range' kMinHeapId (s.nextHeapId - kMinHeapId)).foldl
    (initMatchFoldStep cfg) (s.heaps, [])
  ({ s with heaps := r.1 }, r.2)

/-- The slow path of `heapprofd_init_session`: the factory result (the
factories do socket and process work outside this model, so their outcome is
a parameter; `none` = failure), then the matching loop, then the install of
the new client under the spinlock. -/
def initSessionSlow (s : HState) (factory : Option ClientState) :
    Bool × HState × List CbEvent :=
  match factory with
  | none => (false, s, [])
  | some cl =>
    let r := initMatchAllHeaps cl.heapNames s
    (true, { r.1 with client := some cl }, r.2)

/-- `heapprofd_init_session(malloc_fn, free_fn)` (lines 445-539): reject
nothing when a connected client is installed (idempotent success); otherwise
swap out and drop any stale client, then run the slow path.  (The one-time
`pthread_atfork` installation is assumed to succeed.) -/
def heapprofd_init_session (s : HState) (factory : Option ClientState) :
    Bool × HState × List CbEvent :=
  match s.client with
  | some cl =>
    if cl.connected then
      (true, s, [])
    else
      initSessionSlow { s with client := none } factory
  | none => initSessionSlow { s with client := none } factory

/--
C10: `GetHeap(heap_id)` reads the fixed 256-entry `g_heaps` array with no
bounds check, so the accesses made by `heapprofd_report_allocation` and
`heapprofd_report_free` are in-bounds exactly when `heap_id < 256`; and every
id returned by a successful `heapprofd_register_heap` satisfies
`0 < id < 256`, so validity of the hooks' access is exactly the precondition
that `heap_id` came from a successful registration.
-/
theorem GetHeap_bounds_safety (s : HState) (heap_id size : Nat) (emitOk : Bool)
    (hlen : s.heaps.length = gHeapsSize) :
    ((heapprofd_report_allocation s heap_id size emitOk).isSome ↔
        heap_id < gHeapsSize) ∧
    ((heapprofd_report_free s heap_id emitOk).isSome ↔ heap_id < gHeapsSize) ∧
    (∀ name hasCb n r s2, heapprofd_register_heap s name hasCb n = (r, s2) →
      r ≠ 0 → 0 < r ∧ r < gHeapsSize) := by
  have hb : (s.heaps.get? heap_id).isSome ↔ heap_id < gHeapsSize := by
    rw [← hlen]
    cases hg : s.heaps.get? heap_id with
    | none =>
      have hge := List.get?_eq_none.mp hg
      simp only [Option.isSome_none, Bool.false_eq_true, false_iff]
      omega
    | some heap =>
      obtain ⟨hlt, _⟩ := List.get?_eq_some.mp hg
      simp [hlt]
  refine ⟨?_, ?_, ?_⟩
  · rw [← hb]
    unfold heapprofd_report_allocation
    cases hg : s.heaps.get? heap_id with
    | none => simp
    | some heap =>
      simp only [Option.isSome_some, iff_true]
      by_cases he : heap.enabled
      · simp only [he, Bool.not_true, Bool.false_eq_true, if_false]
        cases s.client with
        | none => simp
        | some cl =>
          by_cases hs0 : cl.sample size = 0
          · simp [hs0]
          · by_cases hek : emitOk
            · simp [hs0, hek]
            · simp [hs0, hek]
      · simp [he]
  · rw [← hb]
    unfold heapprofd_report_free
    cases hg : s.heaps.get? heap_id with
    | none => simp
    | some heap =>
      simp only [Option.isSome_some, iff_true]
      by_cases he : heap.enabled
      · simp only [he, Bool.not_true, Bool.false_eq_true, if_false]
        cases s.client with
        | none => simp
        | some cl =>
          by_cases hek : emitOk
          · simp [hek]
          · simp [hek]
      · simp [he]
  · intro name hasCb n r s2 hreg hr0
    unfold heapprofd_register_heap at hreg
    by_cases hn : n > sizeofHeapprofdHeapInfo
    · rw [if_pos hn] at hreg
      injection hreg with h1 h2
      exact absurd h1.symm hr0
    · rw [if_neg hn] at hreg
      simp only [] at hreg
      by_cases hge : s.nextHeapId ≥ gHeapsSize
      · rw [if_pos hge] at hreg
        injection hreg with h1 h2
        exact absurd h1.symm hr0
      · rw [if_neg hge] at hreg
        injection hreg with h1 h2
        subst h1
        exact ⟨Nat.pos_of_ne_zero hr0, by omega⟩

/-- Witness for C10 at the zero-initialized state and `heap_id = 1`. -/
theorem GetHeap_bounds_safety_witness :
    initialHState.heaps.length = gHeapsSize ∧
    (((heapprofd_report_allocation initialHState 1 100 true).isSome ↔
        1 < gHeapsSize) ∧
     ((heapprofd_report_free initialHState 1 true).isSome ↔ 1 < gHeapsSize) ∧
     (∀ name hasCb n r s2,
        heapprofd_register_heap initialHState name hasCb n = (r, s2) →
        r ≠ 0 → 0 < r ∧ r < gHeapsSize)) :=
  ⟨List.length_replicate gHeapsSize defaultHeapEntry,
    GetHeap_bounds_safety initialHState 1 100 true
      (List.length_replicate gHeapsSize defaultHeapEntry)⟩

/--
C2: `heapprofd_report_allocation(heap_id, id, size)` returns `true` iff the
heap's `enabled` flag is set, a client session is installed, and the sampler
returns a non-zero sampled size for this allocation; in particular it still
returns `true` when the subsequent record emission on the socket fails, in
which case the final state and callback events are those of `ShutdownLazy`.
-/
theorem heapprofd_report_allocation_spec (s : HState) (heap_id size : Nat)
    (emitOk : Bool) (heap : HeapEntry)
    (hget : s.heaps.get? heap_id = some heap) :
    ∃ r : ReportResult,
      heapprofd_report_allocation s heap_id size emitOk = some r ∧
      (r.ret = true ↔ heap.enabled = true ∧
        ∃ cl, s.client = some cl ∧ cl.sample size ≠ 0) ∧
      (r.ret = true → emitOk = false →
        r.state = (ShutdownLazy s).1 ∧ r.events = (ShutdownLazy s).2) := by
  unfold heapprofd_report_allocation
  rw [hget]
  by_cases he : heap.enabled
  · simp only [he, Bool.not_true, Bool.false_eq_true, if_false]
    cases hcl : s.client with
    | none =>
      refine ⟨_, rfl, ?_, ?_⟩
      · simp
      · simp
    | some cl =>
      simp only []
      by_cases hs0 : cl.sample size = 0
      · rw [if_pos hs0]
        refine ⟨_, rfl, ?_, ?_⟩
        · refine iff_of_false (by simp) ?_
          rintro ⟨_, cl2, hcl2, hnz⟩
          injection hcl2 with hcl2
          exact hnz (hcl2 ▸ hs0)
        · simp
      · rw [if_neg hs0]
        by_cases hek : emitOk
        · rw [if_pos hek]
          refine ⟨_, rfl, ?_, ?_⟩
          · exact iff_of_true rfl ⟨trivial, cl, rfl, hs0⟩
          · intro _ hekf
            exact absurd hek (by simp [hekf])
        · rw [if_neg hek]
          refine ⟨_, rfl, ?_, ?_⟩
          · exact iff_of_true rfl ⟨trivial, cl, rfl, hs0⟩
          · intro _ _
            exact ⟨rfl, rfl⟩
  · have he2 : heap.enabled = false := by
      simpa using he
    simp only [he2, Bool.not_false, if_true]
    refine ⟨_, rfl, ?_, ?_⟩
    · simp [he2]
    · simp

/-- Witness for C2: a state with heap 1 enabled and a sampling client; the
hook returns `true` there, and the same state with the client removed makes
it return `false`. -/
def witnessClient : ClientState :=
  { connected := true, heapNames := ["malloc"], sample := fun _ => 4 }

/-- The state for the C2 witness: slot 1 registered, ready and enabled. -/
def witnessHState : HState :=
  { heaps := [defaultHeapEntry,
      { heap_name := "malloc", has_callback := true, ready := true,
        enabled := true, service_heap_id := 0 }],
    nextHeapId := 2,
    client := some witnessClient }

/-- Witness for the C2 theorem at `witnessHState`, `heap_id = 1`,
`size = 100`. -/
theorem heapprofd_report_allocation_spec_witness :
    ∃ r : ReportResult,
      heapprofd_report_allocation witnessHState 1 100 true = some r ∧
      (r.ret = true ↔
        (witnessHState.heaps.getD 1 defaultHeapEntry).enabled = true ∧
        ∃ cl, witnessHState.client = some cl ∧ cl.sample 100 ≠ 0) ∧
      (r.ret = true → true = false →
        r.state = (ShutdownLazy witnessHState).1 ∧
        r.events = (ShutdownLazy witnessHState).2) :=
  heapprofd_report_allocation_spec witnessHState 1 100 true
    (witnessHState.heaps.getD 1 defaultHeapEntry) rfl

theorem disableHeapAt_length (hs : List HeapEntry) (i : Nat) :
    (disableHeapAt hs i).1.length = hs.length := by
  simp only [disableHeapAt]
  split
  · rfl
  · split
    · simp [List.length_set]
    · rfl

theorem disableHeapAt_get?_ne (hs : List HeapEntry) (i j : Nat) (h : i ≠ j) :
    (disableHeapAt hs i).1.get? j = hs.get? j := by
  simp only [disableHeapAt]
  split
  · rfl
  · split
    · simp only []
      exact List.get?_set_ne _ hs h
    · rfl

theorem disableHeapAt_enabled (hs : List HeapEntry) (i : Nat)
    (hready : (hs.getD i defaultHeapEntry).ready = true) :
    ((disableHeapAt hs i).1.getD i defaultHeapEntry).enabled = false := by
  simp only [disableHeapAt]
  rw [hready]
  simp only [Bool.not_true, Bool.false_eq_true, if_false]
  by_cases hen : (hs.getD i defaultHeapEntry).enabled
  · rw [if_pos hen]
    simp only []
    rw [List.getD_eq_get?, List.get?_set_eq]
    cases hg : hs.get? i with
    | none => rfl
    | some e => rfl
  · rw [if_neg hen]
    simpa using hen

theorem disableFold_length (idxs : List Nat) :
    ∀ (acc : List HeapEntry × List CbEvent),
      (idxs.foldl disableFoldStep acc).1.length = acc.1.length := by
  induction idxs with
  | nil => intro acc; rfl
  | cons i rest ih =>
    intro acc
    show (rest.foldl disableFoldStep (disableFoldStep acc i)).1.length = _
    rw [ih (disableFoldStep acc i)]
    exact disableHeapAt_length acc.1 i

theorem disableFold_enabled (idxs : List Nat) :
    ∀ (acc : List HeapEntry × List CbEvent) (j : Nat),
      ((idxs.foldl disableFoldStep acc).1.getD j defaultHeapEntry).enabled
          = true →
      (acc.1.getD j defaultHeapEntry).enabled = true ∧
        (j ∈ idxs → (acc.1.getD j defaultHeapEntry).ready = false) := by
  induction idxs with
  | nil =>
    intro acc j h
    exact ⟨h, fun hm => absurd hm (List.not_mem_nil j)⟩
  | cons i rest ih =>
    intro acc j h
    have hstep := ih (disableFoldStep acc i) j h
    by_cases hij : i = j
    · subst hij
      by_cases hr : (acc.1.getD i defaultHeapEntry).ready
      · exact absurd hstep.1
          (by rw [show (disableFoldStep acc i).1 = (disableHeapAt acc.1 i).1
              from rfl, disableHeapAt_enabled acc.1 i hr]; simp)
      · have hunch : (disableHeapAt acc.1 i).1 = acc.1 := by
          unfold disableHeapAt
          rw [if_pos (by simpa using hr)]
        rw [show (disableFoldStep acc i).1 = (disableHeapAt acc.1 i).1
          from rfl, hunch] at hstep
        exact ⟨hstep.1, fun _ => by simpa using hr⟩
    · have hg : (disableHeapAt acc.1 i).1.getD j defaultHeapEntry =
          acc.1.getD j defaultHeapEntry := by
        rw [List.getD_eq_get?, List.getD_eq_get?,
          disableHeapAt_get?_ne acc.1 i j hij]
      rw [show (disableFoldStep acc i).1 = (disableHeapAt acc.1 i).1
        from rfl, hg] at hstep
      refine ⟨hstep.1, fun hm => ?_⟩
      rcases List.mem_cons.mp hm with hji | hjr
      · exact absurd hji.symm hij
      · exact hstep.2 hjr

/--
C3: after `ShutdownLazy()` returns (invoked, as at every call site, while a
client is installed), every heap's `enabled` flag is false and the client
pointer is empty; consequently every subsequent `heapprofd_report_allocation`
returns `false` without emitting a record and leaves the state unchanged, and
every subsequent `heapprofd_report_free` does nothing.  The well-formedness
hypothesis — an enabled heap is ready and its id lies in
`[kMinHeapId, g_next_heap_id)` — holds for every heap ever enabled through
`heapprofd_init_session`, which only touches ready slots in that id range.
-/
theorem ShutdownLazy_disables_and_clears (s : HState)
    (hcl : s.client.isSome = true)
    (hwf : ∀ j, j < s.heaps.length →
      (s.heaps.getD j defaultHeapEntry).enabled = true →
      (s.heaps.getD j defaultHeapEntry).ready = true ∧
        kMinHeapId ≤ j ∧ j < s.nextHeapId) :
    (ShutdownLazy s).1.client = none ∧
    (∀ j, ((ShutdownLazy s).1.heaps.getD j defaultHeapEntry).enabled = false) ∧
    (∀ heap_id size ok, heap_id < (ShutdownLazy s).1.heaps.length →
      heapprofd_report_allocation (ShutdownLazy s).1 heap_id size ok =
        some { ret := false, emitted := false, events := [],
               state := (ShutdownLazy s).1 }) ∧
    (∀ heap_id ok, heap_id < (ShutdownLazy s).1.heaps.length →
      heapprofd_report_free (ShutdownLazy s).1 heap_id ok =
        some { ret := false, emitted := false, events := [],
               state := (ShutdownLazy s).1 }) := by
  cases hc : s.client with
  | none => rw [hc] at hcl; simp at hcl
  | some cl =>
  have hsd : ShutdownLazy s =
      ({ (DisableAllHeaps s).1 with client := none }, (DisableAllHeaps s).2) := by
    unfold ShutdownLazy
    rw [hc]
  have hclr : (ShutdownLazy s).1.client = none := by rw [hsd]
  have hheaps : (ShutdownLazy s).1.heaps =
      ((List.range' kMinHeapId (s.nextHeapId - kMinHeapId)).foldl
        disableFoldStep (s.heaps, [])).1 := by
    rw [hsd]
    rfl
  have hlen : (ShutdownLazy s).1.heaps.length = s.heaps.length := by
    rw [hheaps]
    exact disableFold_length _ _
  have hdis : ∀ j,
      ((ShutdownLazy s).1.heaps.getD j defaultHeapEntry).enabled = false := by
    intro j
    by_cases hjl : j < s.heaps.length
    · by_contra hneq
      have htrue : ((ShutdownLazy s).1.heaps.getD j
          defaultHeapEntry).enabled = true := by
        simpa using hneq
      rw [hheaps] at htrue
      have hfold := disableFold_enabled _ _ j htrue
      obtain ⟨hready, hge, hlt⟩ := hwf j hjl hfold.1
      have hmem : j ∈ List.range' kMinHeapId (s.nextHeapId - kMinHeapId) := by
        rw [List.mem_range']
        exact ⟨j - kMinHeapId, by omega, by omega⟩
      rw [hfold.2 hmem] at hready
      exact Bool.noConfusion hready
    · rw [List.getD_eq_get?, List.get?_eq_none.mpr (by omega : (ShutdownLazy s).1.heaps.length ≤ j)]
      rfl
  refine ⟨hclr, hdis, ?_, ?_⟩
  · intro heap_id size ok hid
    have hget : (ShutdownLazy s).1.heaps.get? heap_id =
        some ((ShutdownLazy s).1.heaps.getD heap_id defaultHeapEntry) := by
      rw [List.getD_eq_get?]
      cases hg : (ShutdownLazy s).1.heaps.get? heap_id with
      | none =>
        have := List.get?_eq_none.mp hg
        omega
      | some e => rfl
    unfold heapprofd_report_allocation
    rw [hget]
    simp only []
    rw [hdis heap_id]
    rfl
  · intro heap_id ok hid
    have hget : (ShutdownLazy s).1.heaps.get? heap_id =
        some ((ShutdownLazy s).1.heaps.getD heap_id defaultHeapEntry) := by
      rw [List.getD_eq_get?]
      cases hg : (ShutdownLazy s).1.heaps.get? heap_id with
      | none =>
        have := List.get?_eq_none.mp hg
        omega
      | some e => rfl
    unfold heapprofd_report_free
    rw [hget]
    simp only []
    rw [hdis heap_id]
    rfl

/-- Witness for C3 at the concrete enabled state `witnessHState`. -/
theorem ShutdownLazy_disables_and_clears_witness :
    witnessHState.client.isSome = true ∧
    ((ShutdownLazy witnessHState).1.client = none ∧
     (∀ j, ((ShutdownLazy witnessHState).1.heaps.getD j
        defaultHeapEntry).enabled = false) ∧
     (∀ heap_id size ok,
        heap_id < (ShutdownLazy witnessHState).1.heaps.length →
        heapprofd_report_allocation (ShutdownLazy witnessHState).1 heap_id
            size ok =
          some { ret := false, emitted := false, events := [],
                 state := (ShutdownLazy witnessHState).1 }) ∧
     (∀ heap_id ok, heap_id < (ShutdownLazy witnessHState).1.heaps.length →
        heapprofd_report_free (ShutdownLazy witnessHState).1 heap_id ok =
          some { ret := false, emitted := false, events := [],
                 state := (ShutdownLazy witnessHState).1 })) :=
  ⟨rfl, ShutdownLazy_disables_and_clears witnessHState rfl (by decide)⟩

/-- `k` repetitions of `heapprofd_register_heap` with the same arguments,
keeping only the state. -/
def registerIter (name : String) (hasCb : Bool) (n : Nat) :
    Nat → HState → HState
  | 0, s => s
  | k + 1, s =>
    registerIter name hasCb n k (heapprofd_register_heap s name hasCb n).2

/-- The id returned by one registration, as a function of the counter. -/
theorem heapprofd_register_heap_fst (s : HState) (name : String) (hasCb : Bool)
    (n : Nat) :
    (heapprofd_register_heap s name hasCb n).1 =
      if n > sizeofHeapprofdHeapInfo then 0
      else if s.nextHeapId ≥ gHeapsSize then 0
      else s.nextHeapId := by
  unfold heapprofd_register_heap
  split
  · rfl
  · simp only []
    split
    · rfl
    · rfl

/-- The counter after one registration. -/
theorem heapprofd_register_heap_counter (s : HState) (name : String)
    (hasCb : Bool) (n : Nat) :
    (heapprofd_register_heap s name hasCb n).2.nextHeapId =
      if n > sizeofHeapprofdHeapInfo then s.nextHeapId
      else (s.nextHeapId + 1) % 2 ^ 32 := by
  unfold heapprofd_register_heap
  split
  · rfl
  · simp only []
    split
    · rfl
    · rfl

theorem registerIter_counter (name : String) (hasCb : Bool) :
    ∀ (k : Nat) (s : HState), s.nextHeapId < 2 ^ 32 →
      (registerIter name hasCb 72 k s).nextHeapId =
        (s.nextHeapId + k) % 2 ^ 32 := by
  intro k
  induction k with
  | zero =>
    intro s h
    show s.nextHeapId = _
    rw [Nat.add_zero, Nat.mod_eq_of_lt h]
  | succ k ih =>
    intro s h
    show (registerIter name hasCb 72 k
      (heapprofd_register_heap s name hasCb 72).2).nextHeapId = _
    have hstep : (heapprofd_register_heap s name hasCb 72).2.nextHeapId =
        (s.nextHeapId + 1) % 2 ^ 32 := by
      rw [heapprofd_register_heap_counter]
      rw [if_neg (by simp [sizeofHeapprofdHeapInfo])]
    rw [ih _ (by rw [hstep]; exact Nat.mod_lt _ (by norm_num))]
    rw [hstep, Nat.mod_add_mod]
    congr 1
    omega

/--
C1 counterexample: `g_next_heap_id` is a 32-bit fetch-add counter, so ids are
reused after it wraps around.  From the zero-initialized state the very first
registration returns id `1`; after `2 ^ 32` further registrations (all with
the in-range `n = 72`) the next registration returns id `1` again — two
successful calls returning the same id — even though the 256-slot array was
exhausted about `2 ^ 32` calls earlier, contradicting both the
never-reused and the exhaustion-returns-0 parts of the claim.
-/
theorem heapprofd_register_heap_id_reuse_counterexample :
    (heapprofd_register_heap initialHState "malloc" false 72).1 = 1 ∧
    (heapprofd_register_heap
        (registerIter "malloc" false 72 (2 ^ 32) initialHState)
        "malloc" false 72).1 = 1 := by
  constructor
  · rfl
  · have hc : (registerIter "malloc" false 72 (2 ^ 32)
        initialHState).nextHeapId = 1 := by
      rw [registerIter_counter "malloc" false (2 ^ 32) initialHState
        (by norm_num [initialHState, kMinHeapId])]
      show (kMinHeapId + 2 ^ 32) % 2 ^ 32 = 1
      rw [Nat.add_comm, Nat.add_mod_left]
      rfl
    rw [heapprofd_register_heap_fst,
      if_neg (by simp [sizeofHeapprofdHeapInfo]), hc,
      if_neg (by simp [gHeapsSize])]

/-- One entry per registration call: name, callback flag, and the caller's
`n = sizeof` argument. -/
def registerTrace (s : HState) : List (String × Bool × Nat) → List Nat
  | [] => []
  | c :: rest =>
    (heapprofd_register_heap s c.1 c.2.1 c.2.2).1 ::
      registerTrace (heapprofd_register_heap s c.1 c.2.1 c.2.2).2 rest

/-- The number of calls that pass the `n ≤ sizeof(HeapprofdHeapInfo)` check —
exactly those advance `g_next_heap_id`. -/
def acceptedCount (calls : List (String × Bool × Nat)) : Nat :=
  (calls.filter (fun c => decide (c.2.2 ≤ sizeofHeapprofdHeapInfo))).length

/-- Closed form of the result of the `i`-th call of a registration trace. -/
def regResultAt (s : HState) (calls : List (String × Bool × Nat)) (i : Nat) :
    Nat :=
  let n := ((calls.get? i).getD ("", false, 0)).2.2
  let c := s.nextHeapId + acceptedCount (calls.take i)
  if n > sizeofHeapprofdHeapInfo then 0
  else if c ≥ gHeapsSize then 0
  else c

theorem acceptedCount_cons (c : String × Bool × Nat)
    (l : List (String × Bool × Nat)) :
    acceptedCount (c :: l) =
      (if c.2.2 ≤ sizeofHeapprofdHeapInfo then 1 else 0) + acceptedCount l := by
  unfold acceptedCount
  rw [List.filter_cons]
  by_cases h : c.2.2 ≤ sizeofHeapprofdHeapInfo
  · simp [h, Nat.add_comm]
  · simp [h]

theorem regResultAt_cons (s : HState) (c : String × Bool × Nat)
    (rest : List (String × Bool × Nat)) (i : Nat)
    (hnowrap : c.2.2 ≤ sizeofHeapprofdHeapInfo →
      (s.nextHeapId + 1) % 2 ^ 32 = s.nextHeapId + 1) :
    regResultAt (heapprofd_register_heap s c.1 c.2.1 c.2.2).2 rest i =
      regResultAt s (c :: rest) (i + 1) := by
  unfold regResultAt
  simp only [List.get?_cons_succ, List.take_succ_cons]
  rw [acceptedCount_cons, heapprofd_register_heap_counter]
  by_cases hn : c.2.2 > sizeofHeapprofdHeapInfo
  · have hcnt2 : (if c.2.2 > sizeofHeapprofdHeapInfo then s.nextHeapId
        else (s.nextHeapId + 1) % 2 ^ 32) = s.nextHeapId := if_pos hn
    have hind : (if c.2.2 ≤ sizeofHeapprofdHeapInfo then 1 else 0) = 0 :=
      if_neg (by omega)
    rw [hcnt2, hind]
    simp
  · have hcnt2 : (if c.2.2 > sizeofHeapprofdHeapInfo then s.nextHeapId
        else (s.nextHeapId + 1) % 2 ^ 32) = s.nextHeapId + 1 := by
      rw [if_neg hn, hnowrap (by omega)]
    have hind : (if c.2.2 ≤ sizeofHeapprofdHeapInfo then 1 else 0) = 1 :=
      if_pos (by omega)
    rw [hcnt2, hind]
    have hassoc : s.nextHeapId + 1 + acceptedCount (rest.take i) =
        s.nextHeapId + (1 + acceptedCount (rest.take i)) := by
      omega
    rw [hassoc]

theorem registerTrace_get (calls : List (String × Bool × Nat)) :
    ∀ (s : HState) (i : Nat), i < calls.length →
      s.nextHeapId + calls.length ≤ 2 ^ 32 →
      (registerTrace s calls).get? i = some (regResultAt s calls i) := by
  induction calls with
  | nil =>
    intro s i hi _
    exact absurd hi (by simp)
  | cons c rest ih =>
    intro s i hi hbound
    cases i with
    | zero =>
      show some (heapprofd_register_heap s c.1 c.2.1 c.2.2).1 = _
      rw [heapprofd_register_heap_fst]
      unfold regResultAt
      simp only [List.take_zero, List.get?_cons_zero, Option.getD_some]
      rw [show acceptedCount [] = 0 from rfl, Nat.add_zero]
    | succ i =>
      show (registerTrace (heapprofd_register_heap s c.1 c.2.1 c.2.2).2
        rest).get? i = _
      have hi2 : i < rest.length := by
        simpa using hi
      have hboundrest :
          (heapprofd_register_heap s c.1 c.2.1 c.2.2).2.nextHeapId +
            rest.length ≤ 2 ^ 32 := by
        rw [heapprofd_register_heap_counter]
        simp only [List.length_cons] at hbound
        by_cases hn : c.2.2 > sizeofHeapprofdHeapInfo
        · rw [if_pos hn]
          omega
        · rw [if_neg hn]
          have hmle : (s.nextHeapId + 1) % 2 ^ 32 ≤ s.nextHeapId + 1 :=
            Nat.mod_le _ _
          omega
      rw [ih _ i hi2 hboundrest]
      rw [regResultAt_cons s c rest i (fun _ => Nat.mod_eq_of_lt (by
        simp only [List.length_cons] at hbound
        omega))]

theorem acceptedCount_take_lt (calls : List (String × Bool × Nat))
    (i j : Nat) (hij : i < j) (hj : j ≤ calls.length)
    (hacc : ((calls.get? i).getD ("", false, 0)).2.2 ≤ sizeofHeapprofdHeapInfo) :
    acceptedCount (calls.take i) < acceptedCount (calls.take j) := by
  have hi : i < calls.length := by omega
  obtain ⟨ci, hci⟩ : ∃ ci, calls.get? i = some ci := by
    cases hg : calls.get? i with
    | none =>
      have := List.get?_eq_none.mp hg
      omega
    | some ci => exact ⟨ci, rfl⟩
  have hsucc : acceptedCount (calls.take (i + 1)) =
      acceptedCount (calls.take i) + 1 := by
    rw [List.take_succ]
    have hci2 : calls[i]? = some ci := by
      rw [← List.get?_eq_getElem?]
      exact hci
    rw [hci2]
    show acceptedCount (calls.take i ++ [ci]) = _
    unfold acceptedCount
    rw [List.filter_append, List.length_append]
    rw [hci] at hacc
    simp only [Option.getD_some] at hacc
    simp [hacc]
  have hmono : acceptedCount (calls.take (i + 1)) ≤
      acceptedCount (calls.take j) := by
    have hdecomp := List.take_append_drop (i + 1) (calls.take j)
    have htt : (calls.take j).take (i + 1) = calls.take (i + 1) := by
      rw [List.take_take, Nat.min_eq_left (by omega)]
    unfold acceptedCount
    conv_rhs => rw [← hdecomp, htt]
    rw [List.filter_append, List.length_append]
    omega
  omega

/--
C1 (amended): provided the process makes fewer than `2 ^ 32` registration
calls (so the 32-bit `g_next_heap_id` cannot wrap), for a trace of calls from
the initial state: a call whose `n` exceeds the compiled-in
`sizeof(HeapprofdHeapInfo)` returns `0`; every call that returns a non-zero
id returns an `h` with `0 < h < 256` (`0` is returned on overflow of the
256-slot array); and no two calls that return non-zero ids return the same
id.
-/
theorem heapprofd_register_heap_spec (calls : List (String × Bool × Nat))
    (hlen : calls.length < 2 ^ 32) :
    (∀ i, i < calls.length →
      ((calls.get? i).getD ("", false, 0)).2.2 > sizeofHeapprofdHeapInfo →
      (registerTrace initialHState calls).get? i = some 0) ∧
    (∀ i r, i < calls.length →
      (registerTrace initialHState calls).get? i = some r → r ≠ 0 →
      0 < r ∧ r < gHeapsSize) ∧
    (∀ i j ri rj, i < j → j < calls.length →
      (registerTrace initialHState calls).get? i = some ri →
      (registerTrace initialHState calls).get? j = some rj →
      ri ≠ 0 → rj ≠ 0 → ri ≠ rj) := by
  have hbound : initialHState.nextHeapId + calls.length ≤ 2 ^ 32 := by
    show kMinHeapId + calls.length ≤ 2 ^ 32
    unfold kMinHeapId
    omega
  have hchar := registerTrace_get calls initialHState
  have hval : ∀ i r, i < calls.length →
      (registerTrace initialHState calls).get? i = some r → r ≠ 0 →
      ((calls.get? i).getD ("", false, 0)).2.2 ≤ sizeofHeapprofdHeapInfo ∧
      r = kMinHeapId + acceptedCount (calls.take i) ∧ r < gHeapsSize := by
    intro i r hi hr hr0
    rw [hchar i hi hbound] at hr
    injection hr with hr
    unfold regResultAt at hr
    simp only [] at hr
    by_cases hn : ((calls.get? i).getD ("", false, 0)).2.2 >
        sizeofHeapprofdHeapInfo
    · rw [if_pos hn] at hr
      exact absurd hr.symm hr0
    · rw [if_neg hn] at hr
      by_cases hge : initialHState.nextHeapId +
          acceptedCount (calls.take i) ≥ gHeapsSize
      · rw [if_pos hge] at hr
        exact absurd hr.symm hr0
      · rw [if_neg hge] at hr
        exact ⟨by omega, hr.symm, by omega⟩
  refine ⟨?_, ?_, ?_⟩
  · intro i hi hn
    rw [hchar i hi hbound]
    unfold regResultAt
    simp only []
    rw [if_pos hn]
  · intro i r hi hr hr0
    obtain ⟨_, hrv, hlt⟩ := hval i r hi hr hr0
    exact ⟨Nat.pos_of_ne_zero hr0, hlt⟩
  · intro i j ri rj hij hj hri hrj hri0 hrj0
    obtain ⟨hacci, hrvi, _⟩ := hval i ri (by omega) hri hri0
    obtain ⟨_, hrvj, _⟩ := hval j rj hj hrj hrj0
    have hmono := acceptedCount_take_lt calls i j hij (by omega) hacci
    omega

/-- Witness for the amended C1 theorem on a small concrete trace: three calls,
the middle one with a too-new info struct; results are `1, 0, 2`. -/
theorem heapprofd_register_heap_spec_witness :
    ([("a", false, 72), ("b", false, 100), ("c", true, 40)] :
        List (String × Bool × Nat)).length < 2 ^ 32 ∧
    registerTrace initialHState
        [("a", false, 72), ("b", false, 100), ("c", true, 40)] = [1, 0, 2] ∧
    (∀ i j ri rj, i < j → j < ([("a", false, 72), ("b", false, 100),
        ("c", true, 40)] : List (String × Bool × Nat)).length →
      (registerTrace initialHState [("a", false, 72), ("b", false, 100),
        ("c", true, 40)]).get? i = some ri →
      (registerTrace initialHState [("a", false, 72), ("b", false, 100),
        ("c", true, 40)]).get? j = some rj →
      ri ≠ 0 → rj ≠ 0 → ri ≠ rj) :=
  ⟨by norm_num, by rfl,
    (heapprofd_register_heap_spec
      [("a", false, 72), ("b", false, 100), ("c", true, 40)]
      (by norm_num)).2.2⟩

theorem initMatchHeapAt_length (cfg : List String) (hs : List HeapEntry)
    (j : Nat) : (initMatchHeapAt cfg hs j).1.length = hs.length := by
  simp only [initMatchHeapAt]
  split
  · rfl
  · split
    · simp [List.length_set]
    · split
      · simp [List.length_set]
      · rfl

theorem initMatchHeapAt_get?_ne (cfg : List String) (hs : List HeapEntry)
    (j m : Nat) (h : j ≠ m) :
    (initMatchHeapAt cfg hs j).1.get? m = hs.get? m := by
  simp only [initMatchHeapAt]
  split
  · rfl
  · split
    · simp only []
      exact List.get?_set_ne _ hs h
    · split
      · simp only []
        exact List.get?_set_ne _ hs h
      · rfl

theorem initMatchHeapAt_get?_self_congr (cfg : List String)
    (hs1 hs2 : List HeapEntry) (j : Nat) (h : hs1.get? j = hs2.get? j) :
    (initMatchHeapAt cfg hs1 j).1.get? j =
      (initMatchHeapAt cfg hs2 j).1.get? j := by
  have hD : hs1.getD j defaultHeapEntry = hs2.getD j defaultHeapEntry := by
    rw [List.getD_eq_get?, List.getD_eq_get?, h]
  simp only [initMatchHeapAt, hD]
  split
  · exact h
  · split
    · rw [List.get?_set_eq, List.get?_set_eq, h]
    · split
      · rw [List.get?_set_eq, List.get?_set_eq, h]
      · exact h

theorem initMatchHeapAt_events_congr (cfg : List String)
    (hs1 hs2 : List HeapEntry) (j : Nat)
    (h : hs1.getD j defaultHeapEntry = hs2.getD j defaultHeapEntry) :
    (initMatchHeapAt cfg hs1 j).2 = (initMatchHeapAt cfg hs2 j).2 := by
  simp only [initMatchHeapAt, h]
  split
  · rfl
  · split
    · rfl
    · split
      · rfl
      · rfl

theorem initMatchHeapAt_events_first (cfg : List String) (hs : List HeapEntry)
    (j : Nat) : ∀ x ∈ (initMatchHeapAt cfg hs j).2, x.1 = j := by
  intro x hx
  simp only [initMatchHeapAt] at hx
  split at hx
  · simp at hx
  · split at hx
    · simp only [] at hx
      split at hx
      · rw [List.mem_singleton.mp hx]
      · simp at hx
    · split at hx
      · simp only [] at hx
        split at hx
        · rw [List.mem_singleton.mp hx]
        · simp at hx
      · simp at hx

theorem initMatchFold_length (cfg : List String) (idxs : List Nat) :
    ∀ (acc : List HeapEntry × List CbEvent),
      (idxs.foldl (initMatchFoldStep cfg) acc).1.length = acc.1.length := by
  induction idxs with
  | nil => intro acc; rfl
  | cons i rest ih =>
    intro acc
    show (rest.foldl (initMatchFoldStep cfg)
      (initMatchFoldStep cfg acc i)).1.length = _
    rw [ih (initMatchFoldStep cfg acc i)]
    exact initMatchHeapAt_length cfg acc.1 i

theorem initMatchFold_get?_notmem (cfg : List String) (idxs : List Nat) :
    ∀ (acc : List HeapEntry × List CbEvent) (j : Nat), j ∉ idxs →
      (idxs.foldl (initMatchFoldStep cfg) acc).1.get? j = acc.1.get? j := by
  induction idxs with
  | nil => intro acc j _; rfl
  | cons i rest ih =>
    intro acc j hj
    show (rest.foldl (initMatchFoldStep cfg)
      (initMatchFoldStep cfg acc i)).1.get? j = _
    rw [ih _ j (fun hm => hj (List.mem_cons_of_mem i hm))]
    exact initMatchHeapAt_get?_ne cfg acc.1 i j
      (fun he => hj (he ▸ List.mem_cons_self i rest))

theorem initMatchFold_get?_mem (cfg : List String) (idxs : List Nat) :
    ∀ (acc : List HeapEntry × List CbEvent) (j : Nat), idxs.Nodup →
      j ∈ idxs →
      (idxs.foldl (initMatchFoldStep cfg) acc).1.get? j =
        (initMatchHeapAt cfg acc.1 j).1.get? j := by
  induction idxs with
  | nil =>
    intro acc j _ hj
    exact absurd hj (List.not_mem_nil j)
  | cons i rest ih =>
    intro acc j hnd hj
    show (rest.foldl (initMatchFoldStep cfg)
      (initMatchFoldStep cfg acc i)).1.get? j = _
    by_cases hij : j = i
    · subst hij
      rw [initMatchFold_get?_notmem cfg rest _ j
        (by simpa using (List.nodup_cons.mp hnd).1)]
      rfl
    · have hjr : j ∈ rest := by
        rcases List.mem_cons.mp hj with he | hr
        · exact absurd he hij
        · exact hr
      rw [ih _ j (List.nodup_cons.mp hnd).2 hjr]
      exact initMatchHeapAt_get?_self_congr cfg _ acc.1 j
        (initMatchHeapAt_get?_ne cfg acc.1 i j (fun he => hij he.symm))

theorem initMatchFold_events (cfg : List String) (idxs : List Nat) :
    ∀ (hs : List HeapEntry) (evs : List CbEvent), idxs.Nodup →
      (idxs.foldl (initMatchFoldStep cfg) (hs, evs)).2 =
        evs ++ (idxs.map (fun j => (initMatchHeapAt cfg hs j).2)).flatten := by
  induction idxs with
  | nil =>
    intro hs evs _
    simp
  | cons i rest ih =>
    intro hs evs hnd
    show (rest.foldl (initMatchFoldStep cfg)
      ((initMatchHeapAt cfg hs i).1, evs ++ (initMatchHeapAt cfg hs i).2)).2 = _
    rw [ih _ _ (List.nodup_cons.mp hnd).2]
    have hmapeq : rest.map
        (fun j => (initMatchHeapAt cfg (initMatchHeapAt cfg hs i).1 j).2) =
        rest.map (fun j => (initMatchHeapAt cfg hs j).2) := by
      apply List.map_congr_left
      intro j hjr
      have hji : i ≠ j := by
        intro he
        exact (List.nodup_cons.mp hnd).1 (he ▸ hjr)
      exact initMatchHeapAt_events_congr cfg _ hs j
        (by rw [List.getD_eq_get?, List.getD_eq_get?,
          initMatchHeapAt_get?_ne cfg hs i j hji])
    rw [hmapeq]
    simp [List.append_assoc]

theorem count_flatten_single (idxs : List Nat) (f : Nat → List CbEvent)
    (e : CbEvent)
    (honly : ∀ j ∈ idxs, ∀ x ∈ f j, x.1 = j) :
    idxs.Nodup → e.1 ∈ idxs →
    ((idxs.map f).flatten.count e) = (f e.1).count e := by
  induction idxs with
  | nil =>
    intro _ hmem
    exact absurd hmem (List.not_mem_nil _)
  | cons i rest ih =>
    intro hnd hmem
    rw [List.map_cons, List.flatten_cons, List.count_append]
    by_cases hie : i = e.1
    · have hz : ((rest.map f).flatten.count e) = 0 := by
        rw [List.count_eq_zero]
        intro hin
        obtain ⟨L, hL, heL⟩ := List.mem_flatten.mp hin
        obtain ⟨j, hj, hfj⟩ := List.mem_map.mp hL
        have hj1 := honly j (List.mem_cons_of_mem i hj) e
          (by rw [hfj]; exact heL)
        exact (List.nodup_cons.mp hnd).1 (by rw [hie.trans hj1]; exact hj)
      rw [hz, hie, Nat.add_zero]
    · have hz : ((f i).count e) = 0 := by
        rw [List.count_eq_zero]
        intro hin
        exact hie (honly i (List.mem_cons_self i rest) e hin).symm
      rw [hz]
      have hmem2 : e.1 ∈ rest := by
        rcases List.mem_cons.mp hmem with he | hr
        · exact absurd he.symm hie
        · exact hr
      rw [Nat.zero_add]
      exact ih (fun j hj => honly j (List.mem_cons_of_mem i hj))
        (List.nodup_cons.mp hnd).2 hmem2

theorem heapprofd_init_session_no_client (s : HState)
    (factory : Option ClientState) (hcl : s.client = none) :
    heapprofd_init_session s factory =
      initSessionSlow { s with client := none } factory := by
  unfold heapprofd_init_session
  rw [hcl]

theorem heapprofd_init_session_not_connected (s : HState) (cl : ClientState)
    (factory : Option ClientState)
    (hcl : s.client = some cl) (hconn : cl.connected = false) :
    heapprofd_init_session s factory =
      initSessionSlow { s with client := none } factory := by
  unfold heapprofd_init_session
  rw [hcl]
  show (if cl.connected = true then _ else _) = _
  rw [hconn]
  simp only [Bool.false_eq_true, if_false]

theorem initMatchAllHeaps_at (cfg : List String) (s : HState) (h : Nat)
    (hlo : kMinHeapId ≤ h) (hhi : h < s.nextHeapId) :
    ((initMatchAllHeaps cfg s).1.heaps.getD h defaultHeapEntry =
      (initMatchHeapAt cfg s.heaps h).1.getD h defaultHeapEntry) ∧
    (∀ b, (initMatchAllHeaps cfg s).2.count (h, b) =
      (initMatchHeapAt cfg s.heaps h).2.count (h, b)) ∧
    (initMatchAllHeaps cfg s).1.heaps.length = s.heaps.length ∧
    (initMatchAllHeaps cfg s).1.nextHeapId = s.nextHeapId ∧
    (initMatchAllHeaps cfg s).1.client = s.client := by
  have hnd : (List.range' kMinHeapId (s.nextHeapId - kMinHeapId)).Nodup :=
    List.nodup_range' _ _
  have hmem : h ∈ List.range' kMinHeapId (s.nextHeapId - kMinHeapId) := by
    rw [List.mem_range']
    exact ⟨h - kMinHeapId, by omega, by omega⟩
  refine ⟨?_, ?_, ?_, rfl, rfl⟩
  · show (((List.range' kMinHeapId (s.nextHeapId - kMinHeapId)).foldl
      (initMatchFoldStep cfg) (s.heaps, [])).1).getD h defaultHeapEntry = _
    rw [List.getD_eq_get?, initMatchFold_get?_mem cfg _ _ h hnd hmem,
      ← List.getD_eq_get?]
  · intro b
    show (((List.range' kMinHeapId (s.nextHeapId - kMinHeapId)).foldl
      (initMatchFoldStep cfg) (s.heaps, [])).2).count (h, b) = _
    rw [initMatchFold_events cfg _ s.heaps [] hnd, List.nil_append]
    exact count_flatten_single _ _ (h, b)
      (fun j hj => initMatchHeapAt_events_first cfg s.heaps j) hnd hmem
  · exact initMatchFold_length cfg _ _

theorem initMatchHeapAt_matched (cfg : List String) (hs : List HeapEntry)
    (h : Nat) (entry : HeapEntry) (i1 : Nat)
    (hget : hs.get? h = some entry) (hready : entry.ready = true)
    (hfind : cfg.findIdx? (fun nm => nm == entry.heap_name) = some i1) :
    (initMatchHeapAt cfg hs h).1.getD h defaultHeapEntry =
      { entry with service_heap_id := i1, enabled := true } ∧
    (initMatchHeapAt cfg hs h).2 =
      (if !entry.enabled && entry.has_callback then [(h, true)] else []) := by
  have hD : hs.getD h defaultHeapEntry = entry := by
    rw [List.getD_eq_get?, hget]
    rfl
  simp only [initMatchHeapAt, hD, hready, hfind, Bool.not_true,
    Bool.false_eq_true, if_false]
  constructor
  · rw [List.getD_eq_get?, List.get?_set_eq, hget]
    rfl
  · trivial

theorem initMatchHeapAt_unmatched (cfg : List String) (hs : List HeapEntry)
    (h : Nat) (entry : HeapEntry)
    (hget : hs.get? h = some entry) (hready : entry.ready = true)
    (hen : entry.enabled = true)
    (hfind : cfg.findIdx? (fun nm => nm == entry.heap_name) = none) :
    (initMatchHeapAt cfg hs h).1.getD h defaultHeapEntry =
      { entry with enabled := false } ∧
    (initMatchHeapAt cfg hs h).2 =
      (if entry.has_callback then [(h, false)] else []) := by
  have hD : hs.getD h defaultHeapEntry = entry := by
    rw [List.getD_eq_get?, hget]
    rfl
  simp only [initMatchHeapAt, hD, hready, hfind, hen, Bool.not_true,
    Bool.false_eq_true, if_false, if_true]
  constructor
  · rw [List.getD_eq_get?, List.get?_set_eq, hget]
    rfl
  · trivial

/--
C4: for a ready heap `h` whose slot has a callback: a successful
`heapprofd_init_session` whose handshake config contains the heap's name
invokes the callback with `true` exactly once — only on the false→true flip
of `enabled` — and sets `service_heap_id` to the index of the name in the
config; a subsequent successful `heapprofd_init_session` whose config omits
that name invokes the callback with `false` exactly once and disables the
heap.
-/
theorem heapprofd_init_session_callback_once (s : HState)
    (cl1 cl2 : ClientState) (h i1 : Nat)
    (hlen : s.heaps.length = gHeapsSize)
    (hnext : s.nextHeapId ≤ gHeapsSize)
    (hlo : kMinHeapId ≤ h) (hhi : h < s.nextHeapId)
    (hready : (s.heaps.getD h defaultHeapEntry).ready = true)
    (hcb : (s.heaps.getD h defaultHeapEntry).has_callback = true)
    (hdis : (s.heaps.getD h defaultHeapEntry).enabled = false)
    (hfind1 : cl1.heapNames.findIdx?
      (fun nm => nm == (s.heaps.getD h defaultHeapEntry).heap_name) = some i1)
    (hfind2 : cl2.heapNames.findIdx?
      (fun nm => nm == (s.heaps.getD h defaultHeapEntry).heap_name) = none)
    (hclpre : s.client = none)
    (hconn1 : cl1.connected = false) :
    (heapprofd_init_session s (some cl1)).1 = true ∧
    (heapprofd_init_session s (some cl1)).2.2.count (h, true) = 1 ∧
    ((heapprofd_init_session s (some cl1)).2.1.heaps.getD h
        defaultHeapEntry).enabled = true ∧
    ((heapprofd_init_session s (some cl1)).2.1.heaps.getD h
        defaultHeapEntry).service_heap_id = i1 ∧
    (heapprofd_init_session (heapprofd_init_session s (some cl1)).2.1
        (some cl2)).1 = true ∧
    (heapprofd_init_session (heapprofd_init_session s (some cl1)).2.1
        (some cl2)).2.2.count (h, false) = 1 ∧
    ((heapprofd_init_session (heapprofd_init_session s (some cl1)).2.1
        (some cl2)).2.1.heaps.getD h defaultHeapEntry).enabled = false := by
  -- the first call takes the slow path because no client is installed
  have hs0 : ({ s with client := none } : HState) = s := by
    rw [← hclpre]
  have hcall1 : heapprofd_init_session s (some cl1) =
      (true,
        { (initMatchAllHeaps cl1.heapNames s).1 with client := some cl1 },
        (initMatchAllHeaps cl1.heapNames s).2) := by
    rw [heapprofd_init_session_no_client s (some cl1) hclpre, hs0]
    rfl
  have hget : s.heaps.get? h = some (s.heaps.getD h defaultHeapEntry) := by
    rw [List.getD_eq_get?]
    cases hg : s.heaps.get? h with
    | none =>
      have := List.get?_eq_none.mp hg
      omega
    | some e => rfl
  obtain ⟨hat1, hev1, hlen1, hnext1, hcl1s⟩ :=
    initMatchAllHeaps_at cl1.heapNames s h hlo hhi
  obtain ⟨hm1, hm1e⟩ := initMatchHeapAt_matched cl1.heapNames s.heaps h
    (s.heaps.getD h defaultHeapEntry) i1 hget hready hfind1
  have hentry1 : (heapprofd_init_session s (some cl1)).2.1.heaps.getD h
      defaultHeapEntry =
      { s.heaps.getD h defaultHeapEntry with
          service_heap_id := i1, enabled := true } := by
    rw [hcall1]
    show (initMatchAllHeaps cl1.heapNames s).1.heaps.getD h defaultHeapEntry = _
    rw [hat1, hm1]
  -- facts about the state after the first call
  have hs1heaps : (heapprofd_init_session s (some cl1)).2.1.heaps =
      (initMatchAllHeaps cl1.heapNames s).1.heaps := by
    rw [hcall1]
  have hs1next : (heapprofd_init_session s (some cl1)).2.1.nextHeapId =
      s.nextHeapId := by
    rw [hcall1]
    exact hnext1
  have hs1len : (heapprofd_init_session s (some cl1)).2.1.heaps.length =
      s.heaps.length := by
    rw [hs1heaps]
    exact hlen1
  have hs1cl : (heapprofd_init_session s (some cl1)).2.1.client =
      some cl1 := by
    rw [hcall1]
  -- the second call also takes the slow path (cl1 is not connected)
  have hcall2 : heapprofd_init_session
      (heapprofd_init_session s (some cl1)).2.1 (some cl2) =
      (true,
        { (initMatchAllHeaps cl2.heapNames
            { (heapprofd_init_session s (some cl1)).2.1 with
                client := none }).1 with client := some cl2 },
        (initMatchAllHeaps cl2.heapNames
            { (heapprofd_init_session s (some cl1)).2.1 with
                client := none }).2) := by
    rw [heapprofd_init_session_not_connected _ cl1 (some cl2) hs1cl hconn1]
    rfl
  have hget1 : ({ (heapprofd_init_session s (some cl1)).2.1 with
      client := none } : HState).heaps.get? h =
      some ({ s.heaps.getD h defaultHeapEntry with
        service_heap_id := i1, enabled := true }) := by
    show (heapprofd_init_session s (some cl1)).2.1.heaps.get? h = _
    rw [← hentry1, List.getD_eq_get?]
    cases hg : (heapprofd_init_session s (some cl1)).2.1.heaps.get? h with
    | none =>
      have hn2 := List.get?_eq_none.mp hg
      rw [hs1len] at hn2
      omega
    | some e => rfl
  obtain ⟨hat2, hev2, hlen2, hnext2, hcl2s⟩ :=
    initMatchAllHeaps_at cl2.heapNames
      { (heapprofd_init_session s (some cl1)).2.1 with client := none } h
      hlo (by show h < (heapprofd_init_session s (some cl1)).2.1.nextHeapId
              rw [hs1next]
              exact hhi)
  obtain ⟨hm2, hm2e⟩ := initMatchHeapAt_unmatched cl2.heapNames
    ({ (heapprofd_init_session s (some cl1)).2.1 with
        client := none } : HState).heaps h
    ({ s.heaps.getD h defaultHeapEntry with
        service_heap_id := i1, enabled := true }) hget1 hready rfl hfind2
  refine ⟨by rw [hcall1], ?_, by rw [hentry1], by rw [hentry1], ?_, ?_, ?_⟩
  · rw [hcall1]
    show (initMatchAllHeaps cl1.heapNames s).2.count (h, true) = 1
    rw [hev1 true, hm1e, hdis, hcb]
    simp
  · rw [hcall2]
  · rw [hcall2]
    show (initMatchAllHeaps cl2.heapNames
      { (heapprofd_init_session s (some cl1)).2.1 with
          client := none }).2.count (h, false) = 1
    rw [hev2 false, hm2e]
    have hcb2 : (s.heaps[h]?.getD defaultHeapEntry).has_callback = true := by
      rw [← List.getD_eq_getElem?_getD]
      exact hcb
    simp [hcb2]
  · rw [hcall2]
    show ((initMatchAllHeaps cl2.heapNames
      { (heapprofd_init_session s (some cl1)).2.1 with
          client := none }).1.heaps.getD h defaultHeapEntry).enabled = false
    rw [hat2, hm2]

/-- State for the C4 witness: slot 1 holds a ready, disabled heap named
`malloc` with a callback; 254 further empty slots; no client installed. -/
def initWitnessState : HState :=
  { heaps := [defaultHeapEntry,
      { heap_name := "malloc", has_callback := true, ready := true,
        enabled := false, service_heap_id := 0 }] ++
      List.replicate 254 defaultHeapEntry,
    nextHeapId := 2, client := none }

/-- First handshake for the C4 witness: names `malloc` at index 1. -/
def initWitnessCl1 : ClientState :=
  { connected := false, heapNames := ["free", "malloc"], sample := fun _ => 0 }

/-- Second handshake for the C4 witness: omits `malloc`. -/
def initWitnessCl2 : ClientState :=
  { connected := false, heapNames := ["other"], sample := fun _ => 0 }

set_option maxRecDepth 4000 in
/-- Witness for C4 at the concrete state: heap 1, matched at config index 1
by the first handshake and dropped by the second. -/
theorem heapprofd_init_session_callback_once_witness :
    (heapprofd_init_session initWitnessState (some initWitnessCl1)).1 = true ∧
    (heapprofd_init_session initWitnessState
        (some initWitnessCl1)).2.2.count (1, true) = 1 ∧
    ((heapprofd_init_session initWitnessState (some initWitnessCl1)).2.1.heaps.getD
        1 defaultHeapEntry).enabled = true ∧
    ((heapprofd_init_session initWitnessState (some initWitnessCl1)).2.1.heaps.getD
        1 defaultHeapEntry).service_heap_id = 1 ∧
    (heapprofd_init_session
        (heapprofd_init_session initWitnessState (some initWitnessCl1)).2.1
        (some initWitnessCl2)).1 = true ∧
    (heapprofd_init_session
        (heapprofd_init_session initWitnessState (some initWitnessCl1)).2.1
        (some initWitnessCl2)).2.2.count (1, false) = 1 ∧
    ((heapprofd_init_session
        (heapprofd_init_session initWitnessState (some initWitnessCl1)).2.1
        (some initWitnessCl2)).2.1.heaps.getD 1
        defaultHeapEntry).enabled = false :=
  heapprofd_init_session_callback_once initWitnessState initWitnessCl1
    initWitnessCl2 1 1 (by decide) (by decide) (by decide) (by decide)
    (by decide) (by decide) (by decide) (by decide) (by decide) rfl rfl

/-! ### Heap graph tracker ingestion (heap_graph_tracker.cc, lines 341-460)

The tabular storage is modelled by plain lists whose row index is the row id
(`Insert` returns `id = row_count`, and `id().IndexOf` is the identity on
these dense tables).  Per-sequence interning state is an association list
keyed by sequence id, mirroring `sequence_state_[seq_id]`. -/

/-- One reference of a `SourceObject`. -/
structure SourceReference where
  field_name_id : Nat
  owned_object_id : Nat
  deriving Repr, DecidableEq

/-- The parsed object frame passed to `AddObject`. -/
structure SourceObject where
  object_id : Nat
  self_size : Nat
  type_id : Nat
  references : List SourceReference
  deriving Repr, DecidableEq

/-- A row of the heap-graph object table. -/
structure ObjRow where
  upid : Nat
  graph_sample_ts : Int
  self_size : Int
  reference_set_id : Option Nat
  reachable : Nat
  type_id : Option Nat
  root_type : Option Nat
  root_distance : Int
  deriving Repr, DecidableEq

/-- The zero row (used only as the `getD` default for in-range reads). -/
def defaultObjRow : ObjRow :=
  { upid := 0, graph_sample_ts := 0, self_size := 0, reference_set_id := none,
    reachable := 0, type_id := none, root_type := none, root_distance := -1 }

/-- A row of the heap-graph reference table. -/
structure RefRow where
  reference_set_id : Nat
  owner_id : Nat
  owned_id : Nat
  field_name : Option Nat
  field_type_name : Option Nat
  deriving Repr, DecidableEq

/-- Per-sequence interning state (`HeapGraphTracker::SequenceState`); `0` is
the "unset" sentinel for `current_upid` and `current_ts`, exactly as in the
C++. -/
structure SequenceState where
  current_upid : Nat
  current_ts : Int
  object_id_to_db_id : List (Nat × Nat)
  type_id_to_db_id : List (Nat × Nat)
  references_for_field_name_id : List (Nat × List Nat)
  deriving Repr, DecidableEq

/-- The value-initialized sequence state made by `sequence_state_[seq_id]`. -/
def defaultSequenceState : SequenceState :=
  { current_upid := 0, current_ts := 0, object_id_to_db_id := [],
    type_id_to_db_id := [], references_for_field_name_id := [] }

/-- The tracker state: object and reference tables, the class-table row
count (rows are filled in at `FinalizeProfile`), the per-sequence states, and
the `heap_graph_non_finalized_graph` stat. -/
structure TrackerState where
  objects : List ObjRow
  references : List RefRow
  classRowCount : Nat
  seqs : List (Nat × SequenceState)
  stat_non_finalized_graph : Nat
  deriving Repr, DecidableEq

/-- The tracker before any frame. -/
def initialTrackerState : TrackerState :=
  { objects := [], references := [], classRowCount := 0, seqs := [],
    stat_non_finalized_graph := 0 }

/-- Write-back of one sequence state into the association list. -/
def updateAssoc (seqs : List (Nat × SequenceState)) (k : Nat)
    (v : SequenceState) : List (Nat × SequenceState) :=
  match seqs with
  | [] => [(k, v)]
  | (k2, v2) :: rest =>
    if k2 = k then (k, v) :: rest else (k2, v2) :: updateAssoc rest k v

/-- `HeapGraphTracker::SetPidAndTimestamp` (lines 346-361): enforce a single
(upid, ts) per sequence, with `0` as the unset sentinel; on mismatch
increment `heap_graph_non_finalized_graph` and report failure.  Returns
(ok, updated sequence, stat increment). -/
def SetPidAndTimestamp (seq : SequenceState) (upid : Nat) (ts : Int) :
    Bool × SequenceState × Nat :=
  if seq.current_upid ≠ 0 ∧ seq.current_upid ≠ upid then
    (false, seq, 1)
  else if seq.current_ts ≠ 0 ∧ seq.current_ts ≠ ts then
    (false, seq, 1)
  else
    (true, { seq with current_upid := upid, current_ts := ts }, 0)

/-- `HeapGraphTracker::GetOrInsertObject` (lines 363-383): look the wire id up
in the interning map, inserting a fresh blank row (self_size −1, no reference
set, unreachable, root_distance −1) on a miss. -/
def GetOrInsertObject (seq : SequenceState) (objects : List ObjRow)
    (object_id : Nat) : Nat × SequenceState × List ObjRow :=
  match List.lookup object_id seq.object_id_to_db_id with
  | some dbid => (dbid, seq, objects)
  | none =>
    let blank : ObjRow :=
      { upid := seq.current_upid, graph_sample_ts := seq.current_ts,
        self_size := -1, reference_set_id := none, reachable := 0,
        type_id := none, root_type := none, root_distance := -1 }
    (objects.length,
      { seq with object_id_to_db_id :=
          seq.object_id_to_db_id ++ [(object_id, objects.length)] },
      objects ++ [blank])

/-- `HeapGraphTracker::GetOrInsertType` (lines 385-398): intern a type id,
inserting a blank class row on a miss. -/
def GetOrInsertType (seq : SequenceState) (classRowCount : Nat)
    (type_id : Nat) : Nat × SequenceState × Nat :=
  match List.lookup type_id seq.type_id_to_db_id with
  | some dbid => (dbid, seq, classRowCount)
  | none =>
    (classRowCount,
      { seq with type_id_to_db_id :=
          seq.type_id_to_db_id ++ [(type_id, classRowCount)] },
      classRowCount + 1)

/-- `references_for_field_name_id[field_id].push_back(ref_row)`. -/
def updateRefMap (m : List (Nat × List Nat)) (k : Nat) (v : Nat) :
    List (Nat × List Nat) :=
  match m with
  | [] => [(k, [v])]
  | (k2, l) :: rest =>
    if k2 = k then (k2, l ++ [v]) :: rest
    else (k2, l) :: updateRefMap rest k v

/-- The body of the reference loop of `AddObject` for one `SourceReference`:
skip unset (`owned_object_id == 0`) fields, upsert the target object, insert
a reference row (its id is the table length before the insert) and record it
for later field-name resolution. -/
def addReferenceStep (reference_set_id owner_id : Nat)
    (acc : SequenceState × List ObjRow × List RefRow × Bool)
    (ref : SourceReference) : SequenceState × List ObjRow × List RefRow × Bool :=
  if ref.owned_object_id = 0 then acc
  else
    let gi := GetOrInsertObject acc.1 acc.2.1 ref.owned_object_id
    let row : RefRow :=
      { reference_set_id := reference_set_id, owner_id := owner_id,
        owned_id := gi.1, field_name := none, field_type_name := none }
    let seq2 : SequenceState :=
      { gi.2.1 with
          references_for_field_name_id :=
            updateRefMap gi.2.1.references_for_field_name_id ref.field_name_id
              acc.2.2.1.length }
    (seq2, gi.2.2, acc.2.2.1 ++ [row], true)

/-- `HeapGraphTracker::AddObject` (lines 400-449). -/
def AddObject (s : TrackerState) (seq_id upid : Nat) (ts : Int)
    (obj : SourceObject) : TrackerState :=
  let seq0 := (List.lookup seq_id s.seqs).getD defaultSequenceState
  let sp := SetPidAndTimestamp seq0 upid ts
  if !sp.1 then
    { s with seqs := updateAssoc s.seqs seq_id sp.2.1,
             stat_non_finalized_graph :=
               s.stat_non_finalized_graph + sp.2.2 }
  else
    let go := GetOrInsertObject sp.2.1 s.objects obj.object_id
    let owner_id := go.1
    let gt := GetOrInsertType go.2.1 s.classRowCount obj.type_id
    let filled : ObjRow :=
      { go.2.2.getD owner_id defaultObjRow with
          self_size := Int.ofNat obj.self_size, type_id := some gt.1 }
    let objects2 := go.2.2.set owner_id filled
    let reference_set_id := s.references.length
    let rres := obj.references.foldl
      (addReferenceStep reference_set_id owner_id)
      (gt.2.1, objects2, s.references, false)
    let withRefSet : ObjRow :=
      { rres.2.1.getD owner_id defaultObjRow with
          reference_set_id := some reference_set_id }
    let objects4 :=
      if rres.2.2.2 then rres.2.1.set owner_id withRefSet else rres.2.1
    { s with
        objects := objects4,
        references := rres.2.2.1,
        classRowCount := gt.2.2,
        seqs := updateAssoc s.seqs seq_id rres.1 }

theorem updateAssoc_self (seqs : List (Nat × SequenceState)) (k : Nat)
    (v : SequenceState) (h : List.lookup k seqs = some v) :
    updateAssoc seqs k v = seqs := by
  induction seqs with
  | nil => simp [List.lookup] at h
  | cons p rest ih =>
    obtain ⟨k2, v2⟩ := p
    rw [List.lookup_cons] at h
    unfold updateAssoc
    by_cases hk : k2 = k
    · rw [show (k == k2) = true from by simp [hk]] at h
      injection h with h
      show (if k2 = k then _ else _) = _
      rw [if_pos hk, ← hk, ← h]
    · rw [show (k == k2) = false from by simp [Ne.symm hk]] at h
      show (if k2 = k then _ else _) = _
      rw [if_neg hk, ih h]

/-- First frame of the C8 counterexample: establishes `(upid, ts) = (0, 5)`
on sequence 7 (upid `0` is a valid process index). -/
def c8State1 : TrackerState :=
  AddObject initialTrackerState 7 0 5
    { object_id := 1, self_size := 8, type_id := 3, references := [] }

/-- Second frame of the C8 counterexample: same sequence, different pair
`(1, 5)`. -/
def c8State2 : TrackerState :=
  AddObject c8State1 7 1 5
    { object_id := 2, self_size := 16, type_id := 3, references := [] }

/--
C8 counterexample: the "already established" sentinel of
`SetPidAndTimestamp` is the value `0`, so a sequence that has established
`(upid, ts) = (0, 5)` does not drop a frame carrying the different pair
`(1, 5)`: the mismatch stat is not incremented and the object table grows by
the new frame's row, contradicting the claim.
-/
theorem AddObject_zero_upid_counterexample :
    c8State2.stat_non_finalized_graph = c8State1.stat_non_finalized_graph ∧
    c8State2.objects.length = c8State1.objects.length + 1 := by
  constructor
  · decide
  · decide

/--
C8 (amended): for every `AddObject(seq, upid, ts, obj)` call where the
sequence has already established a pair `(upid', ts')` with `upid' ≠ 0` and
`ts' ≠ 0` that differs from `(upid, ts)`, the tracker increments the
`heap_graph_non_finalized_graph` stat and drops the frame: the resulting
state is the old one with only that stat incremented (in particular the
object table and the reference table are unchanged).
-/
theorem AddObject_mismatch_drops (s : TrackerState) (seq_id upid : Nat)
    (ts : Int) (obj : SourceObject) (seq : SequenceState)
    (hseq : List.lookup seq_id s.seqs = some seq)
    (hu : seq.current_upid ≠ 0) (ht : seq.current_ts ≠ 0)
    (hne : seq.current_upid ≠ upid ∨ seq.current_ts ≠ ts) :
    AddObject s seq_id upid ts obj =
      { s with stat_non_finalized_graph := s.stat_non_finalized_graph + 1 } := by
  unfold AddObject
  rw [hseq]
  simp only [Option.getD_some]
  have hsp : SetPidAndTimestamp seq upid ts = (false, seq, 1) := by
    unfold SetPidAndTimestamp
    rcases hne with hne1 | hne2
    · rw [if_pos ⟨hu, hne1⟩]
    · by_cases hup : seq.current_upid ≠ upid
      · rw [if_pos ⟨hu, hup⟩]
      · rw [if_neg (fun hand => hup hand.2), if_pos ⟨ht, hne2⟩]
  rw [hsp]
  simp only [Bool.not_false, if_true]
  rw [updateAssoc_self s.seqs seq_id seq hseq]

/-- State for the C8 witness: sequence 7 established at `(4, 5)`. -/
def c8WitnessState : TrackerState :=
  AddObject initialTrackerState 7 4 5
    { object_id := 1, self_size := 8, type_id := 3, references := [] }

/-- Witness for the amended C8 theorem at a concrete mismatching frame. -/
theorem AddObject_mismatch_drops_witness :
    AddObject c8WitnessState 7 9 5
      { object_id := 2, self_size := 16, type_id := 3, references := [] } =
    { c8WitnessState with stat_non_finalized_graph :=
        c8WitnessState.stat_non_finalized_graph + 1 } :=
  AddObject_mismatch_drops c8WitnessState 7 9 5
    { object_id := 2, self_size := 16, type_id := 3, references := [] }
    { current_upid := 4, current_ts := 5,
      object_id_to_db_id := [(1, 0)], type_id_to_db_id := [(3, 0)],
      references_for_field_name_id := [] }
    (by decide) (by decide) (by decide) (Or.inl (by decide))

/-! ### MarkRoot: BFS of root distance (heap_graph_tracker.cc, lines 47-71
and 161-199)

The object-table columns touched by `MarkRoot` — `root_distance` (`-1` =
unset), `reachable` and `root_type` — are modelled as functions over object
ids.  `GetChildren(storage, id)` walks the contiguous reference-table block
of `id` (asserting `owner_id == id` for every row of the block), so its
result is the adjacency list `children id`, and "there is a Reference whose
owner is `p` and whose owned object is `o`" is `o ∈ children p`.  The
`std::deque` worklist is a list (`pop_front` = head, `emplace_back` =
append).  The C++ loop terminates because every update strictly lowers a
stored distance; the model indexes the loop by fuel, `none` meaning the fuel
ran out before the queue emptied. -/

/-- The object universe and the reference-table adjacency. -/
structure HeapGraph where
  objs : List Nat
  children : Nat → List Nat

/-- The mutable object-table columns used by `MarkRoot`. -/
structure MarkState where
  root_distance : Nat → Int
  reachable : Nat → Bool
  root_type : Nat → Option Nat

/-- The worklist loop of `MarkRoot`: dequeue `(distance, cur)`; if the stored
distance is unset or larger, mark reachable (on first touch), store the
distance, and enqueue each child whose stored distance (read from the updated
table, as in the C++) is unset or larger than `distance + 1`. -/
def bfsRun (g : HeapGraph) : Nat → MarkState → List (Int × Nat) →
    Option MarkState
  | _, σ, [] => some σ
  | 0, _, _ :: _ => none
  | fuel + 1, σ, (distance, cur) :: rest =>
    let cd := σ.root_distance cur
    if cd = -1 ∨ distance < cd then
      let newReach :=
        if cd = -1 then Function.update σ.reachable cur true else σ.reachable
      let newDist := Function.update σ.root_distance cur distance
      let enq := ((g.children cur).filter
        (fun ch => newDist ch == -1 || decide (distance + 1 < newDist ch))).map
        (fun ch => (distance + 1, ch))
      bfsRun g fuel
        { σ with root_distance := newDist, reachable := newReach }
        (rest ++ enq)
    else
      bfsRun g fuel σ rest

/-- `MarkRoot(storage, id, type)` (lines 161-199): stamp the root type, then
run the BFS from `id` at distance `0`. -/
def MarkRoot (g : HeapGraph) (fuel : Nat) (id : Nat) (type : Nat)
    (σ : MarkState) : Option MarkState :=
  bfsRun g fuel
    { σ with root_type := Function.update σ.root_type id (some type) }
    [(0, id)]

/-- A sequence of `MarkRoot` calls (as issued by `FinalizeProfile` for the
buffered roots). -/
def MarkRoots (g : HeapGraph) (fuel : Nat) :
    List (Nat × Nat) → MarkState → Option MarkState
  | [], σ => some σ
  | (id, ty) :: roots, σ =>
    match MarkRoot g fuel id ty σ with
    | none => none
    | some σ2 => MarkRoots g fuel roots σ2

/-- The claimed shortest-distance labelling property: every object at
distance `d > 0` has a parent, via some reference, at distance `d - 1`. -/
def DistInv (g : HeapGraph) (σ : MarkState) : Prop :=
  ∀ o ∈ g.objs, 0 < σ.root_distance o →
    ∃ p ∈ g.objs, σ.root_distance p = σ.root_distance o - 1 ∧
      o ∈ g.children p

/-- The reference table only mentions objects of the table. -/
def Closed (g : HeapGraph) : Prop :=
  ∀ o ∈ g.objs, ∀ c ∈ g.children o, c ∈ g.objs

/-- Queue values are dequeued in nondecreasing order. -/
def QSorted (q : List (Int × Nat)) : Prop :=
  q.Pairwise (fun a b => a.1 ≤ b.1)

/-- Queue values span at most one unit (BFS frontier property). -/
def QSpan (q : List (Int × Nat)) : Prop :=
  ∀ a ∈ q, ∀ b ∈ q, a.1 ≤ b.1 + 1

/-- Every queue entry is justified: it is an object, its distance is
non-negative, and a non-root entry has a parent at the preceding distance. -/
def QEntries (g : HeapGraph) (σ : MarkState) (q : List (Int × Nat)) : Prop :=
  ∀ e ∈ q, e.2 ∈ g.objs ∧ 0 ≤ e.1 ∧
    (e.1 = 0 ∨ ∃ p ∈ g.objs, σ.root_distance p = e.1 - 1 ∧ e.2 ∈ g.children p)

/-- `DistInv` up to pending queue repairs: an object whose parent pointer is
momentarily missing has a strictly better queue entry in flight. -/
def GQInv (g : HeapGraph) (σ : MarkState) (q : List (Int × Nat)) : Prop :=
  ∀ o ∈ g.objs, 0 < σ.root_distance o →
    (∃ p ∈ g.objs, σ.root_distance p = σ.root_distance o - 1 ∧
      o ∈ g.children p) ∨
    (∃ e ∈ q, e.2 = o ∧ e.1 < σ.root_distance o)

/-- The full loop invariant. -/
def BfsInv (g : HeapGraph) (σ : MarkState) (q : List (Int × Nat)) : Prop :=
  QSorted q ∧ QSpan q ∧ QEntries g σ q ∧ GQInv g σ q

theorem distInv_of_nil (g : HeapGraph) (σ : MarkState)
    (h : GQInv g σ []) : DistInv g σ := by
  intro o ho hd
  rcases h o ho hd with hl | ⟨e, he, _⟩
  · exact hl
  · exact absurd he (List.not_mem_nil e)

theorem pairwise_const_fst (d : Int) (L : List Nat) :
    (L.map (fun ch => (d, ch))).Pairwise
      (fun a b : Int × Nat => a.1 ≤ b.1) := by
  induction L with
  | nil => exact List.Pairwise.nil
  | cons c L ih =>
    rw [List.map_cons]
    refine List.Pairwise.cons ?_ ih
    intro b hb
    obtain ⟨ch, _, hch⟩ := List.mem_map.mp hb
    subst hch
    exact le_refl d

theorem mem_bfs_enq (g : HeapGraph) (D2 : Nat → Int) (d : Int) (n : Nat)
    (e : Int × Nat)
    (he : e ∈ ((g.children n).filter
      (fun ch => D2 ch == -1 || decide (d + 1 < D2 ch))).map
      (fun ch => (d + 1, ch))) :
    e.1 = d + 1 ∧ e.2 ∈ g.children n ∧ (D2 e.2 = -1 ∨ d + 1 < D2 e.2) := by
  obtain ⟨ch, hch_mem, hch_eq⟩ := List.mem_map.mp he
  obtain ⟨hmem, hcond⟩ := List.mem_filter.mp hch_mem
  subst hch_eq
  refine ⟨rfl, hmem, ?_⟩
  have hcond2 : D2 ch = -1 ∨ d + 1 < D2 ch := by simpa using hcond
  exact hcond2

theorem enq_mem_intro (g : HeapGraph) (D2 : Nat → Int) (d : Int) (n o : Nat)
    (hch : o ∈ g.children n) (hcond : D2 o = -1 ∨ d + 1 < D2 o) :
    (d + 1, o) ∈ ((g.children n).filter
      (fun ch => D2 ch == -1 || decide (d + 1 < D2 ch))).map
      (fun ch => (d + 1, ch)) := by
  refine List.mem_map.mpr ⟨o, List.mem_filter.mpr ⟨hch, ?_⟩, rfl⟩
  rcases hcond with h1 | h2
  · simp [h1]
  · simp [h2]

theorem bfs_update_preserves (g : HeapGraph) (σ σ2 : MarkState) (d : Int)
    (n : Nat) (rest : List (Int × Nat)) (hc : Closed g)
    (hinv : BfsInv g σ ((d, n) :: rest))
    (hupd : σ.root_distance n = -1 ∨ d < σ.root_distance n)
    (hσ2 : σ2.root_distance = Function.update σ.root_distance n d) :
    BfsInv g σ2
      (rest ++ ((g.children n).filter
        (fun ch => σ2.root_distance ch == -1 ||
          decide (d + 1 < σ2.root_distance ch))).map
        (fun ch => (d + 1, ch))) := by
  obtain ⟨hs, hp, he, hg⟩ := hinv
  obtain ⟨hn_obj, hd0, hd_wit⟩ := he (d, n) (List.mem_cons_self _ _)
  have hsorted_head : ∀ b ∈ rest, d ≤ b.1 :=
    fun b hb => (List.pairwise_cons.mp hs).1 b hb
  have hs_rest : QSorted rest := (List.pairwise_cons.mp hs).2
  have hspan_head : ∀ a ∈ rest, a.1 ≤ d + 1 :=
    fun a ha =>
      hp a (List.mem_cons_of_mem _ ha) (d, n) (List.mem_cons_self _ _)
  have hD2same : σ2.root_distance n = d := by
    rw [hσ2]
    exact Function.update_same n d σ.root_distance
  have hD2other : ∀ x, x ≠ n → σ2.root_distance x = σ.root_distance x := by
    intro x hx
    rw [hσ2]
    exact Function.update_noteq hx d σ.root_distance
  refine ⟨?_, ?_, ?_, ?_⟩
  · -- QSorted
    rw [QSorted, List.pairwise_append]
    refine ⟨hs_rest, pairwise_const_fst (d + 1) _, ?_⟩
    intro a ha b hb
    obtain ⟨hb1, _, _⟩ := mem_bfs_enq g σ2.root_distance d n b hb
    rw [hb1]
    exact hspan_head a ha
  · -- QSpan
    intro a ha b hb
    rcases List.mem_append.mp ha with ha1 | ha2
    · rcases List.mem_append.mp hb with hb1 | hb2
      · exact hp a (List.mem_cons_of_mem _ ha1) b (List.mem_cons_of_mem _ hb1)
      · obtain ⟨hb1, _, _⟩ := mem_bfs_enq g σ2.root_distance d n b hb2
        have := hspan_head a ha1
        omega
    · obtain ⟨ha1, _, _⟩ := mem_bfs_enq g σ2.root_distance d n a ha2
      rcases List.mem_append.mp hb with hb1 | hb2
      · have := hsorted_head b hb1
        omega
      · obtain ⟨hb1, _, _⟩ := mem_bfs_enq g σ2.root_distance d n b hb2
        omega
  · -- QEntries
    intro e heq
    rcases List.mem_append.mp heq with he1 | he2
    · obtain ⟨hobj, h0, hwit⟩ := he e (List.mem_cons_of_mem _ he1)
      refine ⟨hobj, h0, ?_⟩
      rcases hwit with he0 | ⟨p, hp_obj, hpd, hchild⟩
      · exact Or.inl he0
      by_cases hpn : p = n
      · -- the parent is the node just lowered: the entry is the root entry
        rw [hpn] at hpd
        have hspan_e : e.1 ≤ d + 1 :=
          hp e (List.mem_cons_of_mem _ he1) (d, n) (List.mem_cons_self _ _)
        rcases hupd with hm1 | hlt
        · rw [hm1] at hpd
          exact Or.inl (by omega)
        · rw [hpd] at hlt
          exact absurd hspan_e (by omega)
      · exact Or.inr ⟨p, hp_obj, by rw [hD2other p hpn]; exact hpd, hchild⟩
    · obtain ⟨he1, hech, _⟩ := mem_bfs_enq g σ2.root_distance d n e he2
      refine ⟨hc n hn_obj e.2 hech, by omega, Or.inr ⟨n, hn_obj, ?_, hech⟩⟩
      rw [hD2same, he1]
      ring
  · -- GQInv
    intro o ho hdo
    by_cases hon : o = n
    · subst hon
      rw [hD2same] at hdo
      rcases hd_wit with hd_zero | ⟨p, hp_obj, hpd, hchild⟩
      · omega
      · left
        have hpn : p ≠ o := by
          intro hpe
          subst hpe
          rcases hupd with hm1 | hlt
          · rw [hm1] at hpd
            omega
          · rw [hpd] at hlt
            omega
        refine ⟨p, hp_obj, ?_, hchild⟩
        rw [hD2other p hpn, hpd, hD2same]
    · have hdo2 : σ2.root_distance o = σ.root_distance o := hD2other o hon
      rw [hdo2] at hdo
      rcases hg o ho hdo with ⟨p, hp_obj, hpd, hchild⟩ | hqueue
      · by_cases hpn : p = n
        · rw [hpn] at hpd hchild
          rcases hupd with hm1 | hlt
          · rw [hm1] at hpd
            omega
          · -- the parent got strictly better: o is re-enqueued
            right
            rw [hpd] at hlt
            refine ⟨(d + 1, o), List.mem_append.mpr (Or.inr
              (enq_mem_intro g σ2.root_distance d n o hchild
                (Or.inr (by rw [hdo2]; omega)))), rfl, ?_⟩
            rw [hdo2]
            omega
        · left
          refine ⟨p, hp_obj, ?_, hchild⟩
          rw [hD2other p hpn, hpd, hdo2]
      · obtain ⟨⟨e1, e2⟩, hemem, he2v, helt⟩ := hqueue
        rcases List.mem_cons.mp hemem with hhead | hrest
        · exfalso
          injection hhead with hh1 hh2
          subst hh2
          exact hon he2v.symm
        · right
          exact ⟨(e1, e2), List.mem_append.mpr (Or.inl hrest), he2v,
            by rw [hdo2]; exact helt⟩

theorem bfs_skip_preserves (g : HeapGraph) (σ : MarkState) (d : Int) (n : Nat)
    (rest : List (Int × Nat)) (hinv : BfsInv g σ ((d, n) :: rest))
    (hno : ¬(σ.root_distance n = -1 ∨ d < σ.root_distance n)) :
    BfsInv g σ rest := by
  obtain ⟨hs, hp, he, hg⟩ := hinv
  refine ⟨(List.pairwise_cons.mp hs).2,
    fun a ha b hb =>
      hp a (List.mem_cons_of_mem _ ha) b (List.mem_cons_of_mem _ hb),
    fun e heq => he e (List.mem_cons_of_mem _ heq), ?_⟩
  intro o ho hdo
  rcases hg o ho hdo with hl | ⟨⟨e1, e2⟩, hemem, he2v, helt⟩
  · exact Or.inl hl
  · rcases List.mem_cons.mp hemem with hhead | hrest
    · exfalso
      injection hhead with hh1 hh2
      subst hh1
      subst hh2
      have he2' : e2 = o := he2v
      have helt2 : e1 < σ.root_distance o := helt
      subst he2'
      exact hno (Or.inr helt2)
    · exact Or.inr ⟨(e1, e2), hrest, he2v, helt⟩

theorem bfsRun_distInv (g : HeapGraph) (hc : Closed g) :
    ∀ (fuel : Nat) (σ : MarkState) (q : List (Int × Nat)) (σ2 : MarkState),
      BfsInv g σ q → bfsRun g fuel σ q = some σ2 → DistInv g σ2 := by
  intro fuel
  induction fuel with
  | zero =>
    intro σ q σ2 hinv hrun
    cases q with
    | nil =>
      injection hrun with hrun
      subst hrun
      exact distInv_of_nil g _ hinv.2.2.2
    | cons e rest => simp [bfsRun] at hrun
  | succ fuel ih =>
    intro σ q σ2 hinv hrun
    cases q with
    | nil =>
      injection hrun with hrun
      subst hrun
      exact distInv_of_nil g _ hinv.2.2.2
    | cons e rest =>
      obtain ⟨d, n⟩ := e
      simp only [bfsRun] at hrun
      split at hrun
      · rename_i hupd
        exact ih _ _ σ2
          (bfs_update_preserves g σ _ d n rest hc hinv hupd rfl) hrun
      · rename_i hno
        exact ih _ _ σ2 (bfs_skip_preserves g σ d n rest hinv hno) hrun

theorem MarkRoot_distInv (g : HeapGraph) (fuel : Nat) (id ty : Nat)
    (σ σ2 : MarkState) (hc : Closed g) (hid : id ∈ g.objs)
    (hinv : DistInv g σ) (hrun : MarkRoot g fuel id ty σ = some σ2) :
    DistInv g σ2 := by
  apply bfsRun_distInv g hc fuel _ _ σ2 ?_ hrun
  refine ⟨List.pairwise_singleton _ _, ?_, ?_, ?_⟩
  · intro a ha b hb
    rw [List.mem_singleton.mp ha, List.mem_singleton.mp hb]
    show (0 : Int) ≤ 0 + 1
    omega
  · intro e heq
    rw [List.mem_singleton.mp heq]
    exact ⟨hid, le_refl 0, Or.inl rfl⟩
  · intro o ho hdo
    exact Or.inl (hinv o ho hdo)

theorem MarkRoots_distInv (g : HeapGraph) (fuel : Nat) (hc : Closed g) :
    ∀ (roots : List (Nat × Nat)) (σ σ2 : MarkState),
      (∀ r ∈ roots, r.1 ∈ g.objs) → DistInv g σ →
      MarkRoots g fuel roots σ = some σ2 → DistInv g σ2 := by
  intro roots
  induction roots with
  | nil =>
    intro σ σ2 _ hinv hrun
    injection hrun with hrun
    subst hrun
    exact hinv
  | cons r rs ih =>
    intro σ σ2 hr hinv hrun
    obtain ⟨id, ty⟩ := r
    unfold MarkRoots at hrun
    cases hr1 : MarkRoot g fuel id ty σ with
    | none =>
      rw [hr1] at hrun
      exact Option.noConfusion hrun
    | some σmid =>
      rw [hr1] at hrun
      exact ih σmid σ2 (fun r2 h2 => hr r2 (List.mem_cons_of_mem _ h2))
        (MarkRoot_distInv g fuel id ty σ σmid hc
          (hr (id, ty) (List.mem_cons_self _ _)) hinv hr1) hrun

/--
C5: after any sequence of `MarkRoot` calls (applied to roots of the object
table, starting from a state that already satisfies the labelling — e.g. the
fresh table where every `root_distance` is `-1`), for every object `o` marked
reachable whose `root_distance` is `d > 0` there exists a reference whose
owner is an object with `root_distance` `d - 1` and whose owned object is
`o`: the root distances form a valid shortest-distance labelling of the BFS.
-/
theorem MarkRoot_root_distance_invariant (g : HeapGraph) (fuel : Nat)
    (roots : List (Nat × Nat)) (σ σ2 : MarkState) (hc : Closed g)
    (hroots : ∀ r ∈ roots, r.1 ∈ g.objs) (hinv : DistInv g σ)
    (hrun : MarkRoots g fuel roots σ = some σ2) :
    ∀ o ∈ g.objs, ∀ d : Int, σ2.reachable o = true →
      σ2.root_distance o = d → 0 < d →
      ∃ p ∈ g.objs, σ2.root_distance p = d - 1 ∧ o ∈ g.children p := by
  have main : DistInv g σ2 :=
    MarkRoots_distInv g fuel hc roots σ σ2 hroots hinv hrun
  intro o ho d _ hdist hd
  obtain ⟨p, hp, hpd, hch⟩ := main o ho (by rw [hdist]; exact hd)
  exact ⟨p, hp, by rw [← hdist]; exact hpd, hch⟩

/-- Graph for the C5 witness: objects `1, 2` with one reference `1 → 2`
(spec scenario 4). -/
def c5G : HeapGraph :=
  { objs := [1, 2], children := fun o => if o = 1 then [2] else [] }

/-- Fresh object-table columns: all distances `-1`, nothing reachable. -/
def c5σ0 : MarkState :=
  { root_distance := fun _ => -1, reachable := fun _ => false,
    root_type := fun _ => none }

/-- The state after `MarkRoot` on root `1`. -/
def c5Run : MarkState := (MarkRoots c5G 10 [(1, 0)] c5σ0).getD c5σ0

/-- Witness for C5 on the two-object graph: the run completes and the
labelling property holds for its result. -/
theorem MarkRoot_root_distance_invariant_witness :
    MarkRoots c5G 10 [(1, 0)] c5σ0 = some c5Run ∧
    (∀ o ∈ c5G.objs, ∀ d : Int, c5Run.reachable o = true →
      c5Run.root_distance o = d → 0 < d →
      ∃ p ∈ c5G.objs, c5Run.root_distance p = d - 1 ∧ o ∈ c5G.children p) :=
  ⟨rfl, MarkRoot_root_distance_invariant c5G 10 [(1, 0)] c5σ0 c5Run
    (by unfold Closed; decide) (by decide) (by unfold DistInv; decide) rfl⟩

end Perfetto
